import Mathlib

/-!
# Verification of `otread` (OTBioelettronica/otread/otread.py)

A shallow embedding of the single-function converter `otread`, which reads an
`.otb+` archive (a tar container holding the XML metadata file `form_dock00.xml`
and a raw binary `.sig` sample file), selects the channels whose `plugin` tag is
`LoaderOTComm`, decodes the interleaved int16 sample stream, calibrates each
channel to volts and writes a `.yaml` header file plus a `.csv` data file with a
trailing time column.

Modelling conventions:

* The tar extraction and XML parsing (excluded collaborators) are modelled away:
  an `Archive` carries the already-parsed list of `signal` nodes and the map
  from extracted file names to their byte contents.
* An XML text field is modelled by `FieldVal`: `absent` for a missing tag
  (Python `signal.find(key)` returning `None`), `intText n` for text parseable
  as a Python `int` literal, `floatText q` for text parseable as `float` but
  not as `int` (for example `"3.5"` or `"3.0"`), and `text s` for any other
  text (texts denoting IEEE specials such as `"inf"`/`"nan"` are outside the
  model).  Python float values are idealised as exact rationals extended with
  `nan`/`inf` markers (`PyFloat`); rounding and signed zero are not modelled.
* NumPy behaviour embedded faithfully: `np.array(l, dtype=float)` turns `None`
  into `nan` silently and raises `ValueError` on non-numeric text;
  `np.array(l, dtype=int)` raises `TypeError` on `None` and `ValueError` on
  text that is not an int literal; `np.frombuffer(b, dtype=np.int16)` requires
  an even byte count (little-endian two's-complement pairs) and raises
  `ValueError` otherwise; `np.reshape(a, (-1, k))` raises `ValueError` unless
  `k` is positive and divides the flat length; fancy column indexing wraps
  negative indices and raises `IndexError` on out-of-range ones; `2 ** a` on an
  integer array raises `ValueError` for negative exponents.
* The filesystem is the pair of output files (`FS`); `otread fs arch` returns
  the new filesystem together with the raised error, if any (Python raises,
  the model returns `(fs, some e)` leaving the filesystem untouched — the
  source writes both files strictly after the last possible error point).
* Referencing the local variable `signal_path` when no channel was selected
  raises Python's `UnboundLocalError`; this is `Err.unboundLocal`.
-/

namespace OTRead

/-- The text content of one XML tag lookup, as classified by Python's numeric
parsers (see the module docstring). -/
inductive FieldVal where
  | absent
  | intText (n : Int)
  | floatText (q : ℚ)
  | text (s : String)
deriving DecidableEq, Repr

/-- An idealised Python/NumPy double: an exact rational, an infinity with a
sign, or `nan`. -/
inductive PyFloat where
  | fin (q : ℚ)
  | inf (neg : Bool)
  | nan
deriving DecidableEq, Repr

/-- IEEE-style multiplication on idealised doubles. -/
def PyFloat.mul : PyFloat → PyFloat → PyFloat
  | .nan, _ => .nan
  | _, .nan => .nan
  | .fin a, .fin b => .fin (a * b)
  | .fin a, .inf s => if a = 0 then .nan else .inf (xor s (decide (a < 0)))
  | .inf s, .fin b => if b = 0 then .nan else .inf (xor s (decide (b < 0)))
  | .inf s, .inf t => .inf (xor s t)

/-- IEEE-style division on idealised doubles (NumPy array division by zero
yields a signed infinity or `nan`, not an exception). -/
def PyFloat.div : PyFloat → PyFloat → PyFloat
  | .nan, _ => .nan
  | _, .nan => .nan
  | .fin a, .fin b =>
      if b = 0 then (if a = 0 then .nan else .inf (decide (a < 0))) else .fin (a / b)
  | .fin _, .inf _ => .fin 0
  | .inf s, .fin b => .inf (xor s (decide (b < 0)))
  | .inf _, .inf _ => .nan

/-- IEEE-style strict `<` on idealised doubles (`nan` compares false). -/
def PyFloat.ltb : PyFloat → PyFloat → Bool
  | .fin a, .fin b => decide (a < b)
  | .fin _, .inf s => !s
  | .inf s, .fin _ => s
  | .inf s, .inf t => s && !t
  | .nan, _ => false
  | _, .nan => false

/-- Float promotion (`astype(float)`) of one integer sample. -/
def intToFloat (v : Int) : PyFloat := .fin (v : ℚ)

instance {ε α : Type} [DecidableEq ε] [DecidableEq α] : DecidableEq (Except ε α) := fun x y =>
  match x, y with
  | .ok a, .ok b =>
      if h : a = b then .isTrue (by rw [h])
      else .isFalse fun hh => h (Except.ok.injEq .. ▸ hh)
  | .ok _, .error _ => .isFalse fun hh => Except.noConfusion hh
  | .error _, .ok _ => .isFalse fun hh => Except.noConfusion hh
  | .error a, .error b =>
      if h : a = b then .isTrue (by rw [h])
      else .isFalse fun hh => h (Except.error.injEq .. ▸ hh)

/-- The distinguishable ways `otread` terminates abnormally.  `alreadyProcessed`
and `unrecognizedUnit` are the two `raise Exception(...)` sites of the source;
the others are the Python/NumPy exception classes escaping from it. -/
inductive Err where
  | alreadyProcessed
  | attributeError
  | typeError
  | valueError
  | zeroDivisionError
  | unboundLocal
  | fileNotFound
  | indexError
  | unrecognizedUnit
deriving DecidableEq, Repr

/-- One `<signal>` node of `form_dock00.xml`, with the tag lookups the source
performs on it. -/
structure SignalNode where
  plugin : Option String
  track_index : FieldVal
  description : FieldVal
  unity_of_measurement : FieldVal
  fsample : FieldVal
  ad_bits : FieldVal
  signal_gain : FieldVal
  low_pass_filter : FieldVal
  high_pass_filter : FieldVal
  signal_path : Option String
  track_totalnumber : FieldVal
deriving DecidableEq, Repr

/-- An extracted archive: the parsed `<signal>` nodes in document order and the
extracted files (name, byte contents). -/
structure Archive where
  nodes : List SignalNode
  files : List (String × List Nat)
deriving DecidableEq, Repr

/-- The `headers` dictionary while it is being built: one list per key, each
selected channel appending exactly one entry (`power_supply` is forced to the
constant `5`). -/
structure RawHeaders where
  track_index : List FieldVal
  description : List FieldVal
  unity_of_measurement : List FieldVal
  power_supply : List Int
  fsample : List FieldVal
  ad_bits : List FieldVal
  signal_gain : List FieldVal
  low_pass_filter : List FieldVal
  high_pass_filter : List FieldVal
deriving DecidableEq, Repr

def RawHeaders.empty : RawHeaders := ⟨[], [], [], [], [], [], [], [], []⟩

/-- One iteration of the header-collection loop body for a selected node:
append `5` to `power_supply` and the tag lookup result to every other key. -/
def RawHeaders.push (h : RawHeaders) (nd : SignalNode) : RawHeaders where
  track_index := h.track_index ++ [nd.track_index]
  description := h.description ++ [nd.description]
  unity_of_measurement := h.unity_of_measurement ++ [nd.unity_of_measurement]
  power_supply := h.power_supply ++ [5]
  fsample := h.fsample ++ [nd.fsample]
  ad_bits := h.ad_bits ++ [nd.ad_bits]
  signal_gain := h.signal_gain ++ [nd.signal_gain]
  low_pass_filter := h.low_pass_filter ++ [nd.low_pass_filter]
  high_pass_filter := h.high_pass_filter ++ [nd.high_pass_filter]

/-- Python `float(x)` applied to a tag lookup result: `float(None)` raises
`TypeError`, non-numeric text raises `ValueError`. -/
def pyFloat : FieldVal → Except Err ℚ
  | .absent => .error .typeError
  | .intText n => .ok (n : ℚ)
  | .floatText q => .ok q
  | .text _ => .error .valueError

/-- Python `int(x.text)`: only int-literal text converts; float-literal or
other text raises `ValueError`, `None` raises `TypeError`. -/
def pyInt : FieldVal → Except Err Int
  | .absent => .error .typeError
  | .intText n => .ok n
  | .floatText _ => .error .valueError
  | .text _ => .error .valueError

/-- The values captured inside `if n_signals == 1:` — the `signal_path` and
`track_totalnumber` elements of the first selected node and the timestep
`1 / float(headers["fsample"][0])`. -/
structure Common where
  signal_path : Option String
  track_totalnumber : FieldVal
  timestep : ℚ
deriving DecidableEq, Repr

/-- The `for signal in root.iter("signal")` loop: count and collect the
`LoaderOTComm` nodes; a node without a `plugin` tag makes
`signal.find("plugin").text` raise `AttributeError`; on the first selected node
capture the `Common` values (where `float(None)` raises `TypeError`,
non-numeric text `ValueError` and `1 / 0.0` `ZeroDivisionError`). -/
def parseNodes : List SignalNode → Nat → RawHeaders → Option Common →
    Except Err (Nat × RawHeaders × Option Common)
  | [], n, hdr, cap => .ok (n, hdr, cap)
  | nd :: rest, n, hdr, cap =>
    match nd.plugin with
    | none => .error .attributeError
    | some p =>
      if p = "LoaderOTComm" then
        if n = 0 then
          match pyFloat nd.fsample with
          | .error e => .error e
          | .ok q =>
            if q = 0 then .error .zeroDivisionError
            else parseNodes rest 1 (hdr.push nd)
                   (some ⟨nd.signal_path, nd.track_totalnumber, 1 / q⟩)
        else parseNodes rest (n + 1) (hdr.push nd) cap
      else parseNodes rest n hdr cap

/-- NumPy `np.array(l, dtype=int)` on one entry: `None` raises `TypeError`,
non-int-literal text raises `ValueError`. -/
def npIntOne : FieldVal → Except Err Int
  | .absent => .error .typeError
  | .intText n => .ok n
  | .floatText _ => .error .valueError
  | .text _ => .error .valueError

/-- NumPy `np.array(l, dtype=int)`, converting entries left to right. -/
def npIntArray : List FieldVal → Except Err (List Int)
  | [] => .ok []
  | v :: vs => do
    let x ← npIntOne v
    let xs ← npIntArray vs
    .ok (x :: xs)

/-- NumPy `np.array(l, dtype=float)` on one entry: `None` silently becomes `nan`;
non-numeric text raises `ValueError`. -/
def npFloatOne : FieldVal → Except Err PyFloat
  | .absent => .ok .nan
  | .intText n => .ok (.fin (n : ℚ))
  | .floatText q => .ok (.fin q)
  | .text _ => .error .valueError

/-- NumPy `np.array(l, dtype=float)`, converting entries left to right. -/
def npFloatArray : List FieldVal → Except Err (List PyFloat)
  | [] => .ok []
  | v :: vs => do
    let x ← npFloatOne v
    let xs ← npFloatArray vs
    .ok (x :: xs)

/-- One little-endian two's-complement int16 from two bytes. -/
def decode16 (lo hi : Nat) : Int :=
  let u := lo % 256 + 256 * (hi % 256)
  if u < 32768 then (u : Int) else (u : Int) - 65536

/-- NumPy `np.frombuffer(data, dtype=np.int16)`: consecutive 2-byte little-endian
signed integers; an odd byte count raises `ValueError`. -/
def int16sOf : List Nat → Except Err (List Int)
  | [] => .ok []
  | [_] => .error .valueError
  | lo :: hi :: rest => do
    let xs ← int16sOf rest
    .ok (decode16 lo hi :: xs)

/-- Split a flat list into `r` consecutive rows of width `k`. -/
def chunksAux : Nat → Nat → List PyFloat → List (List PyFloat)
  | 0, _, _ => []
  | r + 1, k, l => l.take k :: chunksAux r k (l.drop k)

/-- NumPy `np.reshape(data, (-1, tt))`: requires a positive column count dividing the
flat length, else `ValueError`; rows are consecutive slices (row-major). -/
def reshapeCols (flat : List PyFloat) (tt : Int) : Except Err (List (List PyFloat)) :=
  if 0 < tt ∧ flat.length % tt.toNat = 0 then
    .ok (chunksAux (flat.length / tt.toNat) tt.toNat flat)
  else .error .valueError

/-- NumPy fancy-index wrapping of a possibly negative column index. -/
def effIdx (tt : Int) (i : Int) : Int := if i < 0 then i + tt else i

/-- Fancy indexing `data[:, idxs]` on a matrix with `tt` columns: every index must land in
`[0, tt)` after wrapping, else `IndexError`; the selected columns appear in the
order of `idxs`. -/
def selectCols (mat : List (List PyFloat)) (idxs : List Int) (tt : Int) :
    Except Err (List (List PyFloat)) :=
  if idxs.all fun i => decide (0 ≤ effIdx tt i) && decide (effIdx tt i < tt) then
    .ok (mat.map fun row => idxs.map fun i => row.getD (effIdx tt i).toNat .nan)
  else .error .indexError

/-- The per-channel unit factor: `"mV" → 1000`, `"V" → 1`, anything else (other
text, numeric text, or an absent tag, since `None` equals neither string)
raises the `Exception` of the `else` branch. -/
def unitFactor : FieldVal → Except Err ℚ
  | .text "mV" => .ok 1000
  | .text "V" => .ok 1
  | _ => .error .unrecognizedUnit

/-- For channel `n` in order: the unit factor, then `2 ** ad_bits[n]` (NumPy
raises `ValueError` on a negative integer exponent).  Returns
`(factor, 2 ^ ad_bits)` per channel.  The final catch-all is unreachable from
`core` because all header lists are built in lockstep. -/
def calibParams : List FieldVal → List Int → Except Err (List (ℚ × ℚ))
  | [], [] => .ok []
  | u :: us, b :: bs =>
    match unitFactor u with
    | .error e => .error e
    | .ok f =>
      if 0 ≤ b then
        match calibParams us bs with
        | .error e => .error e
        | .ok rest => .ok ((f, (2 : ℚ) ^ b.toNat) :: rest)
      else .error .valueError
  | _, _ => .error .indexError

/-- The per-entry transform
`x * power_supply / (2 ** ad_bits) * factor / signal_gain`,
evaluated left to right as Python does. -/
def calibEntry (x ps : PyFloat) (pw factor : ℚ) (g : PyFloat) : PyFloat :=
  (((x.mul ps).div (.fin pw)).mul (.fin factor)).div g

/-- Calibrate one row: entry `n` with channel `n`'s scalars. -/
def calibRow : List PyFloat → List PyFloat → List (ℚ × ℚ) → List PyFloat → List PyFloat
  | x :: xs, ps :: pss, (f, pw) :: rest, g :: gs =>
      calibEntry x ps pw f g :: calibRow xs pss rest gs
  | _, _, _, _ => []

/-- The `for n in range(n_signals)` calibration loop: per-channel unit/exponent
errors in loop order, then the column transforms (column `n` reads only raw
column `n` and channel `n`'s scalars, so the in-place update order is
immaterial to the final matrix). -/
def calibrateAll (sel : List (List PyFloat)) (unity : List FieldVal)
    (psA : List PyFloat) (adb : List Int) (sg : List PyFloat) :
    Except Err (List (List PyFloat)) := do
  let params ← calibParams unity adb
  .ok (sel.map fun row => calibRow row psA params sg)

/-- Time stacking `np.column_stack([data, time.T])` with `time = np.arange(rows) * timestep`,
row `i` getting `i * timestep` appended (the first argument is the running
row index). -/
def appendTimeAux (ts : ℚ) : Nat → List (List PyFloat) → List (List PyFloat)
  | _, [] => []
  | i, row :: rest => (row ++ [.fin ((i : ℚ) * ts)]) :: appendTimeAux ts (i + 1) rest

def appendTime (cal : List (List PyFloat)) (ts : ℚ) : List (List PyFloat) :=
  appendTimeAux ts 0 cal

/-- The `.yaml` header document: the seven numeric keys after coercion and
`tolist()`, the two text keys as collected. -/
structure HeadersOut where
  track_index : List Int
  description : List FieldVal
  unity_of_measurement : List FieldVal
  power_supply : List PyFloat
  fsample : List PyFloat
  ad_bits : List Int
  signal_gain : List PyFloat
  low_pass_filter : List PyFloat
  high_pass_filter : List PyFloat
deriving DecidableEq, Repr

/-- The two output files next to the archive: `.yaml` and `.csv` contents, or
`none` when the file does not exist. -/
structure FS where
  yaml : Option HeadersOut
  csv : Option (List (List PyFloat))
deriving DecidableEq, Repr

/-- The file read `open(os.path.join(PATHTEMP, signal_path), 'rb').read()`. -/
def openFile (files : List (String × List Nat)) (path : String) : Except Err (List Nat) :=
  match files.lookup path with
  | some bs => .ok bs
  | none => .error .fileNotFound

/-- The `READ SIGNALS` block once both common elements are present: the seven
`np.array` coercions in `heads` order, `int(...)` of `track_totalnumber`, file
read, `np.frombuffer`, reshape, column selection, calibration, time column,
then the two writes. -/
def coreDecode (arch : Archive) (hdr : RawHeaders) (sp : String) (ttv : FieldVal)
    (ts : ℚ) : Except Err FS := do
  let ti ← npIntArray hdr.track_index
  let psA := hdr.power_supply.map intToFloat
  let fsm ← npFloatArray hdr.fsample
  let adb ← npIntArray hdr.ad_bits
  let sg ← npFloatArray hdr.signal_gain
  let lpf ← npFloatArray hdr.low_pass_filter
  let hpf ← npFloatArray hdr.high_pass_filter
  let tt ← pyInt ttv
  let bytes ← openFile arch.files sp
  let ints ← int16sOf bytes
  let flat := ints.map intToFloat
  let mat ← reshapeCols flat tt
  let sel ← selectCols mat ti tt
  let cal ← calibrateAll sel hdr.unity_of_measurement psA adb sg
  let final := appendTime cal ts
  .ok { yaml := some ⟨ti, hdr.description, hdr.unity_of_measurement, psA,
                      fsm, adb, sg, lpf, hpf⟩,
        csv := some final }

/-- After the header loop: referencing `signal_path` with zero selected
channels raises `UnboundLocalError`; the guard
`None not in [signal_path, track_totalnumber]` silently skips the whole
`READ SIGNALS` block (returning with nothing written) when either element is
absent. -/
def corePost (fs : FS) (arch : Archive) (hdr : RawHeaders) (cap : Option Common) :
    Except Err FS :=
  match cap with
  | none => .error .unboundLocal
  | some c =>
    match c.signal_path with
    | none => .ok fs
    | some sp =>
      if c.track_totalnumber = .absent then .ok fs
      else coreDecode arch hdr sp c.track_totalnumber c.timestep

/-- The body of `otread` with the raised exception, if any, made explicit.
Stage order follows the source: existence guard, header collection, then the
rest of the pipeline (`corePost`). -/
def core (fs : FS) (arch : Archive) : Except Err FS :=
  if fs.yaml.isSome || fs.csv.isSome then .error .alreadyProcessed
  else do
    let (_, hdr, cap) ← parseNodes arch.nodes 0 RawHeaders.empty none
    corePost fs arch hdr cap

/-- Top level `otread`: on an exception the filesystem is unchanged (both writes happen
strictly after the last possible raise site). -/
def otread (fs : FS) (arch : Archive) : FS × Option Err :=
  match core fs arch with
  | .ok fs' => (fs', none)
  | .error e => (fs, some e)

/-- The first node whose `plugin` text is `LoaderOTComm`, in document order. -/
def selHead (nodes : List SignalNode) : Option SignalNode :=
  (nodes.filter fun nd => decide (nd.plugin = some "LoaderOTComm")).head?

/-- The time column: each row's last entry. -/
def timeCol (m : List (List PyFloat)) : List PyFloat :=
  m.filterMap fun r => r.getLast?

/-- Strictly increasing chain under the IEEE `<`. -/
def strictIncrB : List PyFloat → Bool
  | [] => true
  | [_] => true
  | a :: b :: t => PyFloat.ltb a b && strictIncrB (b :: t)

/-! ## Concrete fixtures -/

/-- No output files exist yet. -/
def fs0 : FS := ⟨none, none⟩

/-- A well-formed single-channel node: mono signal, 1000 Hz, 12 bits, unit V,
gain 2, whose samples live in `s.sig`. -/
def nd1 : SignalNode :=
  { plugin := some "LoaderOTComm", track_index := .intText 0, description := .absent,
    unity_of_measurement := .text "V", fsample := .intText 1000, ad_bits := .intText 12,
    signal_gain := .intText 2, low_pass_filter := .intText 0, high_pass_filter := .intText 500,
    signal_path := some "s.sig", track_totalnumber := .intText 1 }

/-- A valid archive: two raw samples of value `2048` (bytes `00 08`). -/
def a1 : Archive := ⟨[nd1], [("s.sig", [0, 8, 0, 8])]⟩

/-- Like `nd1` but the metadata lacks `signal_path`. -/
def aNoPath : Archive := ⟨[{ nd1 with signal_path := none }], []⟩

/-- A node of the non-acquisition plugin kind. -/
def aProcOnly : Archive :=
  ⟨[{ nd1 with plugin := some "LoaderProcessing" }], []⟩

/-- First channel of a two-channel archive (`track_totalnumber = 2`). -/
def nd1b : SignalNode := { nd1 with track_totalnumber := .intText 2 }

/-- Second channel whose `signal_gain` tag is missing. -/
def ndGainAbsent : SignalNode :=
  { nd1 with track_index := .intText 1, signal_gain := .absent }

/-- Two interleaved channels, one row, channel 2 with an absent `signal_gain`. -/
def a2 : Archive := ⟨[nd1b, ndGainAbsent], [("s.sig", [0, 8, 0, 8])]⟩

/-- Like `nd1` but with unit text `"W"`, which the source does not recognize. -/
def aBadUnit : Archive :=
  ⟨[{ nd1 with unity_of_measurement := .text "W" }], [("s.sig", [0, 8, 0, 8])]⟩

/-- Like `nd1` but `fsample = -1` and `ad_bits = 2`, two rows of samples. -/
def a5 : Archive :=
  ⟨[{ nd1 with fsample := .intText (-1), ad_bits := .intText 2 }],
   [("s.sig", [1, 0, 2, 0])]⟩

/-- Three bytes of raw data: an odd count of one-byte halves, i.e. a sample
stream whose length (after int16 decoding, had it succeeded) cannot tile
`track_totalnumber = 2` columns; here with 6 bytes = 3 samples and `tt = 2`
replaced by 3 samples over 2 columns. -/
def aNonDiv : Archive :=
  ⟨[{ nd1b with track_index := .intText 0 }], [("s.sig", [1, 0, 2, 0, 3, 0])]⟩

/-- The header file a successful run writes for `a1`. -/
def h1out : HeadersOut :=
  ⟨[0], [.absent], [.text "V"], [.fin 5], [.fin 1000], [12], [.fin 2], [.fin 0], [.fin 500]⟩

/-- The data file a successful run writes for `a1`: both samples calibrate to
`2048 * 5 / 4096 * 1 / 2 = 1.25` volts, time steps of `1/1000` s. -/
def m1out : List (List PyFloat) :=
  [[.fin (5 / 4), .fin 0], [.fin (5 / 4), .fin (1 / 1000)]]

/-- The filesystem after a successful run on `a1`. -/
def fs1 : FS := ⟨some h1out, some m1out⟩

/-- The header dictionary collected from `a2`'s two selected channels. -/
def hdr2 : RawHeaders :=
  ⟨[.intText 0, .intText 1], [.absent, .absent], [.text "V", .text "V"], [5, 5],
   [.intText 1000, .intText 1000], [.intText 12, .intText 12], [.intText 2, .absent],
   [.intText 0, .intText 0], [.intText 500, .intText 500]⟩

/-- The common parameters captured from `a2`'s first selected channel. -/
def c2 : Common := ⟨some "s.sig", .intText 2, 1 / 1000⟩

/-- Little-endian two's-complement encoding of one int16 sample. -/
def encode16 (v : Int) : List Nat :=
  [(v % 65536).toNat % 256, (v % 65536).toNat / 256]

/-- An `N × M` matrix of known integer ramp values: entry `(i, j)` is
`i * M + j`. -/
def ramp (N M : Nat) : List (List Int) :=
  (List.range N).map fun i => (List.range M).map fun j => ((i * M + j : Nat) : Int)

/-- The raw byte buffer encoding a sample matrix row-major. -/
def rawBufferOf (mat : List (List Int)) : List Nat := mat.flatten.bind encode16

/-- The ramp matrix as float samples (what `astype(float)` yields). -/
def rampF (N M : Nat) : List (List PyFloat) :=
  (ramp N M).map fun row => row.map intToFloat

/-- Two signal nodes that agree on every tag except (possibly) `fsample`. -/
def SameButFsample (a b : SignalNode) : Prop :=
  a.plugin = b.plugin ∧ a.track_index = b.track_index ∧ a.description = b.description ∧
  a.unity_of_measurement = b.unity_of_measurement ∧ a.ad_bits = b.ad_bits ∧
  a.signal_gain = b.signal_gain ∧ a.low_pass_filter = b.low_pass_filter ∧
  a.high_pass_filter = b.high_pass_filter ∧ a.signal_path = b.signal_path ∧
  a.track_totalnumber = b.track_totalnumber

/-- Two header dictionaries that agree on every list except (possibly)
`fsample`. -/
def HdrButFsample (h1 h2 : RawHeaders) : Prop :=
  h1.track_index = h2.track_index ∧ h1.description = h2.description ∧
  h1.unity_of_measurement = h2.unity_of_measurement ∧ h1.power_supply = h2.power_supply ∧
  h1.ad_bits = h2.ad_bits ∧ h1.signal_gain = h2.signal_gain ∧
  h1.low_pass_filter = h2.low_pass_filter ∧ h1.high_pass_filter = h2.high_pass_filter

/-- The archive `a2` with the second (non-first) channel's `fsample` changed
from 1000 to 2000. -/
def a2v : Archive :=
  ⟨[nd1b, { ndGainAbsent with fsample := .intText 2000 }], [("s.sig", [0, 8, 0, 8])]⟩

/-- The header file written for `a2`. -/
def hdr2ToOut : HeadersOut :=
  ⟨[0, 1], [.absent, .absent], [.text "V", .text "V"], [.fin 5, .fin 5],
   [.fin 1000, .fin 1000], [12, 12], [.fin 2, .nan], [.fin 0, .fin 0],
   [.fin 500, .fin 500]⟩

/-- The header file written for `a2v` (only `fsample` differs). -/
def hdr2vOut : HeadersOut :=
  ⟨[0, 1], [.absent, .absent], [.text "V", .text "V"], [.fin 5, .fin 5],
   [.fin 1000, .fin 2000], [12, 12], [.fin 2, .nan], [.fin 0, .fin 0],
   [.fin 500, .fin 500]⟩

/-! ## Generic helper lemmas -/

theorem exceptBind_ok {α β : Type} {x : Except Err α} {f : α → Except Err β} {b : β}
    (h : x.bind f = .ok b) : ∃ a, x = .ok a ∧ f a = .ok b := by
  cases x with
  | ok a => exact ⟨a, rfl, h⟩
  | error e => exact absurd h (by simp [Except.bind])

theorem otread_error_unchanged {fs fs' : FS} {arch : Archive} {e : Err}
    (h : otread fs arch = (fs', some e)) : fs' = fs := by
  unfold otread at h
  cases hc : core fs arch with
  | ok a => rw [hc] at h; exact absurd h (by simp)
  | error e' => rw [hc] at h; exact (Prod.mk.injEq .. ▸ h).1.symm

theorem core_guard {fs : FS} {arch : Archive}
    (h : fs.yaml.isSome || fs.csv.isSome) :
    core fs arch = .error .alreadyProcessed := by
  unfold core
  simp [h]

theorem unitFactor_other {v : FieldVal} (h1 : v ≠ .text "mV") (h2 : v ≠ .text "V") :
    unitFactor v = .error .unrecognizedUnit := by
  match v with
  | .absent => rfl
  | .intText n => rfl
  | .floatText q => rfl
  | .text s =>
    have hs1 : s ≠ "mV" := fun hh => h1 (by rw [hh])
    have hs2 : s ≠ "V" := fun hh => h2 (by rw [hh])
    simp [unitFactor, hs1, hs2]

theorem unitFactor_mV_iff (v : FieldVal) : unitFactor v = .ok 1000 ↔ v = .text "mV" := by
  constructor
  · intro h
    by_cases h1 : v = .text "mV"
    · exact h1
    · by_cases h2 : v = .text "V"
      · subst h2; simp [unitFactor] at h
      · rw [unitFactor_other h1 h2] at h; cases h
  · rintro rfl; rfl

theorem unitFactor_V_iff (v : FieldVal) : unitFactor v = .ok 1 ↔ v = .text "V" := by
  constructor
  · intro h
    by_cases h1 : v = .text "mV"
    · subst h1; simp [unitFactor] at h
    · by_cases h2 : v = .text "V"
      · exact h2
      · rw [unitFactor_other h1 h2] at h; cases h
  · rintro rfl; rfl

theorem calibParams_units {unity : List FieldVal} {adb : List Int}
    {params : List (ℚ × ℚ)} (h : calibParams unity adb = .ok params) :
    ∀ u ∈ unity, u = .text "mV" ∨ u = .text "V" := by
  intro u hu
  induction unity generalizing adb params with
  | nil => cases hu
  | cons v vs ih =>
    match adb with
    | [] => exact absurd h (by simp [calibParams])
    | b :: bs =>
      rw [calibParams] at h
      split at h
      · cases h
      · rename_i f hf
        rcases List.mem_cons.mp hu with hu' | hu'
        · subst hu'
          by_cases h1 : u = .text "mV"
          · exact Or.inl h1
          · by_cases h2 : u = .text "V"
            · exact Or.inr h2
            · rw [unitFactor_other h1 h2] at hf; cases hf
        · split at h
          · split at h
            · cases h
            · rename_i rest hrest
              exact ih hrest hu'
          · cases h

/-! ## C7: pre-existing output guard -/

/-- C7: if either target output file already exists, the conversion aborts with
the `AlreadyProcessed` exception before doing any work, writing nothing and
leaving the filesystem unchanged; consequently, after a first run that wrote
its outputs, a second run on the same archive fails with `AlreadyProcessed`
and leaves the first run's outputs untouched. -/
theorem C7_already_processed (fs : FS) (arch : Archive) :
    (fs.yaml.isSome = true ∨ fs.csv.isSome = true →
      otread fs arch = (fs, some .alreadyProcessed)) ∧
    (∀ fs', core fs arch = .ok fs' → fs'.yaml.isSome = true →
      otread fs' arch = (fs', some .alreadyProcessed)) := by
  constructor
  · intro h
    have hb : (fs.yaml.isSome || fs.csv.isSome) = true := by
      rcases h with h | h <;> simp [h]
    unfold otread
    rw [core_guard hb]
  · intro fs' _ hy
    have hb : (fs'.yaml.isSome || fs'.csv.isSome) = true := by simp [hy]
    unfold otread
    rw [core_guard hb]

/-- C7 witness: on the valid archive `a1` the first run writes both files and
the second run fails with `AlreadyProcessed`, returning the first run's
filesystem byte-identically. -/
theorem C7_already_processed_witness :
    core fs0 a1 = .ok fs1 ∧ fs1.yaml.isSome = true ∧
    otread fs1 a1 = (fs1, some .alreadyProcessed) := by
  refine ⟨by with_unfolding_all rfl, by decide, ?_⟩
  exact (C7_already_processed fs0 a1).2 fs1 (by with_unfolding_all rfl) (by decide)

/-! ## C4: unit scale factor -/

/-- C4: the unit scale factor is `1000` exactly for `unity_of_measurement`
text `"mV"` and `1` exactly for `"V"`; every other value (other text, numeric
text, or an absent tag) raises the `UnrecognizedUnit` exception, calibration
succeeds only when every channel's unit is one of the two, and any raised
error leaves the filesystem unchanged, so after such a failure neither output
file exists. -/
theorem C4_unit_factor :
    (∀ v : FieldVal,
      (unitFactor v = .ok 1000 ↔ v = .text "mV") ∧
      (unitFactor v = .ok 1 ↔ v = .text "V") ∧
      (v ≠ .text "mV" → v ≠ .text "V" → unitFactor v = .error .unrecognizedUnit)) ∧
    (∀ unity adb params, calibParams unity adb = .ok params →
      ∀ u ∈ unity, u = .text "mV" ∨ u = .text "V") ∧
    (∀ fs arch fs' e, otread fs arch = (fs', some e) → fs' = fs) := by
  refine ⟨?_, ?_, fun fs arch fs' e h => otread_error_unchanged h⟩
  · intro v
    exact ⟨unitFactor_mV_iff v, unitFactor_V_iff v, fun h1 h2 => unitFactor_other h1 h2⟩
  · intro unity adb params h
    exact calibParams_units h

/-! ## C2: numeric coercion of header fields -/

theorem npIntArray_cons (v : FieldVal) (vs : List FieldVal) :
    npIntArray (v :: vs) =
      (npIntOne v).bind fun x => (npIntArray vs).bind fun xs => .ok (x :: xs) := rfl

theorem npFloatArray_cons (v : FieldVal) (vs : List FieldVal) :
    npFloatArray (v :: vs) =
      (npFloatOne v).bind fun x => (npFloatArray vs).bind fun xs => .ok (x :: xs) := rfl

theorem npIntArray_err {l : List FieldVal}
    (h : ∃ v ∈ l, npIntOne v = .error .typeError ∨ npIntOne v = .error .valueError) :
    ∃ e, npIntArray l = .error e := by
  induction l with
  | nil => rcases h with ⟨v, hv, _⟩; cases hv
  | cons v vs ih =>
    rcases h with ⟨w, hw, hwe⟩
    rcases List.mem_cons.mp hw with rfl | hw'
    · rcases hwe with hwe | hwe <;>
        exact ⟨_, by rw [npIntArray_cons, hwe]; rfl⟩
    · rcases hv : npIntOne v with e | x
      · exact ⟨e, by rw [npIntArray_cons, hv]; rfl⟩
      · rcases ih ⟨w, hw', hwe⟩ with ⟨e, he⟩
        exact ⟨e, by rw [npIntArray_cons, hv, he]; rfl⟩

theorem npFloatArray_text {l : List FieldVal} {s : String}
    (h : FieldVal.text s ∈ l) : ∃ e, npFloatArray l = .error e := by
  induction l with
  | nil => cases h
  | cons v vs ih =>
    rcases List.mem_cons.mp h with rfl | hw'
    · exact ⟨.valueError, by rw [npFloatArray_cons]; rfl⟩
    · rcases hv : npFloatOne v with e | x
      · exact ⟨e, by rw [npFloatArray_cons, hv]; rfl⟩
      · rcases ih hw' with ⟨e, he⟩
        exact ⟨e, by rw [npFloatArray_cons, hv, he]; rfl⟩

theorem npFloatArray_ok {l : List FieldVal} {r : List PyFloat}
    (h : npFloatArray l = .ok r) :
    r.length = l.length ∧
    ∀ i (hi : i < l.length) (hr : i < r.length),
      l.get ⟨i, hi⟩ = .absent → r.get ⟨i, hr⟩ = .nan := by
  induction l generalizing r with
  | nil =>
    cases h
    exact ⟨rfl, fun i hi => absurd hi (Nat.not_lt_zero i)⟩
  | cons v vs ih =>
    rw [npFloatArray_cons] at h
    rcases exceptBind_ok h with ⟨x, hx, h⟩
    rcases exceptBind_ok h with ⟨xs, hxs, h⟩
    cases h
    rcases ih hxs with ⟨hlen, hnan⟩
    refine ⟨by simp [hlen], ?_⟩
    intro i hi hr habs
    match i with
    | 0 =>
      simp only [List.get] at habs ⊢
      subst habs
      cases hx
      rfl
    | j + 1 =>
      exact hnan j (Nat.lt_of_succ_lt_succ hi) (Nat.lt_of_succ_lt_succ hr) habs

/-- C2 (amended): for the integer-coerced fields (`track_index`, `ad_bits`) an
absent marker or non-numeric text raises a fatal error at the coercion step,
and for the float-coerced fields non-numeric text raises a fatal error; but an
absent marker in a float-coerced field (`fsample`, `signal_gain`,
`low_pass_filter`, `high_pass_filter` of a non-first channel) does NOT raise:
it silently becomes the numeric array entry `nan`. -/
theorem C2_coercion (l : List FieldVal) :
    (FieldVal.absent ∈ l → ∃ e, npIntArray l = .error e) ∧
    (∀ s, FieldVal.text s ∈ l → ∃ e, npIntArray l = .error e) ∧
    (∀ s, FieldVal.text s ∈ l → ∃ e, npFloatArray l = .error e) ∧
    (∀ r, npFloatArray l = .ok r → r.length = l.length ∧
      ∀ i (hi : i < l.length) (hr : i < r.length),
        l.get ⟨i, hi⟩ = .absent → r.get ⟨i, hr⟩ = .nan) := by
  refine ⟨fun h => npIntArray_err ⟨_, h, Or.inl rfl⟩,
          fun s h => npIntArray_err ⟨_, h, Or.inr rfl⟩,
          fun s h => npFloatArray_text h,
          fun r h => npFloatArray_ok h⟩

/-- C2 witness: on the list `[intText 12, absent]` integer coercion raises and
float coercion maps the absent marker at index 1 to `nan`. -/
theorem C2_coercion_witness :
    (∃ e, npIntArray [FieldVal.intText 12, FieldVal.absent] = .error e) ∧
    [PyFloat.fin 12, PyFloat.nan].get ⟨1, by decide⟩ = PyFloat.nan := by
  refine ⟨(C2_coercion [FieldVal.intText 12, FieldVal.absent]).1 (by decide), ?_⟩
  exact ((C2_coercion [FieldVal.intText 12, FieldVal.absent]).2.2.2
    [PyFloat.fin 12, PyFloat.nan] (by with_unfolding_all rfl)).2
    1 (by decide) (by decide) (by decide)

/-- C2 counterexample: in archive `a2` the second selected channel's
`signal_gain` tag is absent, yet the conversion raises no error at all: it
runs to completion and writes both files, the absent marker having silently
become the numeric value `nan` (in the header's `signal_gain` array and in the
exported data column). -/
theorem C2_counterexample :
    (a2.nodes.get ⟨1, by decide⟩).signal_gain = FieldVal.absent ∧
    otread fs0 a2 =
      (⟨some ⟨[0, 1], [.absent, .absent], [.text "V", .text "V"],
              [.fin 5, .fin 5], [.fin 1000, .fin 1000], [12, 12], [.fin 2, .nan],
              [.fin 0, .fin 0], [.fin 500, .fin 500]⟩,
        some [[.fin (5 / 4), .nan, .fin 0]]⟩, none) :=
  ⟨by decide, by with_unfolding_all rfl⟩

/-! ## C10: header lists stay aligned -/

theorem parseNodes_cons_ok {nd : SignalNode} {rest : List SignalNode} {n : Nat}
    {hdr : RawHeaders} {cap : Option Common} {n' : Nat} {hdr' : RawHeaders}
    {cap' : Option Common}
    (h : parseNodes (nd :: rest) n hdr cap = .ok (n', hdr', cap')) :
    ∃ p, nd.plugin = some p ∧
      ((p ≠ "LoaderOTComm" ∧ parseNodes rest n hdr cap = .ok (n', hdr', cap')) ∨
       (p = "LoaderOTComm" ∧ n = 0 ∧ ∃ q, pyFloat nd.fsample = .ok q ∧ q ≠ 0 ∧
          parseNodes rest 1 (hdr.push nd)
            (some ⟨nd.signal_path, nd.track_totalnumber, 1 / q⟩) = .ok (n', hdr', cap')) ∨
       (p = "LoaderOTComm" ∧ n ≠ 0 ∧
          parseNodes rest (n + 1) (hdr.push nd) cap = .ok (n', hdr', cap'))) := by
  cases hp : nd.plugin with
  | none => rw [parseNodes, hp] at h; cases h
  | some p =>
    rw [parseNodes, hp] at h
    dsimp only at h
    refine ⟨p, rfl, ?_⟩
    by_cases hsel : p = "LoaderOTComm"
    · rw [if_pos hsel] at h
      by_cases hn : n = 0
      · rw [if_pos hn] at h
        rcases hq : pyFloat nd.fsample with e | q
        · rw [hq] at h; cases h
        · rw [hq] at h
          dsimp only at h
          by_cases hq0 : q = 0
          · rw [if_pos hq0] at h; cases h
          · rw [if_neg hq0] at h
            exact Or.inr (Or.inl ⟨hsel, hn, q, rfl, hq0, h⟩)
      · rw [if_neg hn] at h
        exact Or.inr (Or.inr ⟨hsel, hn, h⟩)
    · rw [if_neg hsel] at h
      exact Or.inl ⟨hsel, h⟩

theorem parseNodes_field_len (f : RawHeaders → Nat)
    (hf : ∀ (h : RawHeaders) (nd : SignalNode), f (h.push nd) = f h + 1) :
    ∀ (nodes : List SignalNode) (n : Nat) (hdr : RawHeaders) (cap : Option Common)
      (n' : Nat) (hdr' : RawHeaders) (cap' : Option Common),
      parseNodes nodes n hdr cap = .ok (n', hdr', cap') →
      f hdr' + n = f hdr + n' := by
  intro nodes
  induction nodes with
  | nil =>
    intro n hdr cap n' hdr' cap' h
    cases h
    rfl
  | cons nd rest ih =>
    intro n hdr cap n' hdr' cap' h
    rcases parseNodes_cons_ok h with ⟨p, hp, hcase⟩
    rcases hcase with ⟨_, h⟩ | ⟨_, hn, q, _, _, h⟩ | ⟨_, hn, h⟩
    · exact ih n hdr cap n' hdr' cap' h
    · have := ih 1 (hdr.push nd) _ n' hdr' cap' h
      rw [hf] at this
      omega
    · have := ih (n + 1) (hdr.push nd) cap n' hdr' cap' h
      rw [hf] at this
      omega

theorem parseNodes_count :
    ∀ (nodes : List SignalNode) (n : Nat) (hdr : RawHeaders) (cap : Option Common)
      (n' : Nat) (hdr' : RawHeaders) (cap' : Option Common),
      parseNodes nodes n hdr cap = .ok (n', hdr', cap') →
      n' = n + (nodes.filter fun nd => decide (nd.plugin = some "LoaderOTComm")).length := by
  intro nodes
  induction nodes with
  | nil =>
    intro n hdr cap n' hdr' cap' h
    cases h
    simp
  | cons nd rest ih =>
    intro n hdr cap n' hdr' cap' h
    rcases parseNodes_cons_ok h with ⟨p, hp, hcase⟩
    rcases hcase with ⟨hsel, h⟩ | ⟨hsel, hn, q, _, _, h⟩ | ⟨hsel, hn, h⟩
    · have hfilter :
          ((nd :: rest).filter fun nd => decide (nd.plugin = some "LoaderOTComm")) =
            rest.filter fun nd => decide (nd.plugin = some "LoaderOTComm") := by
        simp only [List.filter_cons, hp]
        simp [Option.some.injEq, hsel]
      rw [hfilter]
      exact ih n hdr cap n' hdr' cap' h
    · have hfilter :
          ((nd :: rest).filter fun nd => decide (nd.plugin = some "LoaderOTComm")) =
            nd :: (rest.filter fun nd => decide (nd.plugin = some "LoaderOTComm")) := by
        subst hsel
        simp [List.filter_cons, hp]
      rw [hfilter, List.length_cons]
      have := ih 1 (hdr.push nd) _ n' hdr' cap' h
      omega
    · have hfilter :
          ((nd :: rest).filter fun nd => decide (nd.plugin = some "LoaderOTComm")) =
            nd :: (rest.filter fun nd => decide (nd.plugin = some "LoaderOTComm")) := by
        subst hsel
        simp [List.filter_cons, hp]
      rw [hfilter, List.length_cons]
      have := ih (n + 1) (hdr.push nd) cap n' hdr' cap' h
      omega

/-- C10: after the metadata-collection loop, every per-field list of the
header dictionary (`track_index`, `description`, `unity_of_measurement`,
`power_supply`, `fsample`, `ad_bits`, `signal_gain`, `low_pass_filter`,
`high_pass_filter`) has length exactly `n_signals`, the number of selected
(`LoaderOTComm`) channels — each selected channel contributes exactly one
entry to every field. -/
theorem C10_header_lengths (nodes : List SignalNode) (n : Nat) (hdr : RawHeaders)
    (cap : Option Common)
    (h : parseNodes nodes 0 RawHeaders.empty none = .ok (n, hdr, cap)) :
    n = (nodes.filter fun nd => decide (nd.plugin = some "LoaderOTComm")).length ∧
    hdr.track_index.length = n ∧ hdr.description.length = n ∧
    hdr.unity_of_measurement.length = n ∧ hdr.power_supply.length = n ∧
    hdr.fsample.length = n ∧ hdr.ad_bits.length = n ∧
    hdr.signal_gain.length = n ∧ hdr.low_pass_filter.length = n ∧
    hdr.high_pass_filter.length = n := by
  have hc := parseNodes_count nodes 0 RawHeaders.empty none n hdr cap h
  have t1 : hdr.track_index.length + 0 = RawHeaders.empty.track_index.length + n :=
    parseNodes_field_len (fun x => x.track_index.length)
      (fun x nd => by simp [RawHeaders.push]) nodes 0 RawHeaders.empty none n hdr cap h
  have t2 : hdr.description.length + 0 = RawHeaders.empty.description.length + n :=
    parseNodes_field_len (fun x => x.description.length)
      (fun x nd => by simp [RawHeaders.push]) nodes 0 RawHeaders.empty none n hdr cap h
  have t3 : hdr.unity_of_measurement.length + 0 = RawHeaders.empty.unity_of_measurement.length + n :=
    parseNodes_field_len (fun x => x.unity_of_measurement.length)
      (fun x nd => by simp [RawHeaders.push]) nodes 0 RawHeaders.empty none n hdr cap h
  have t4 : hdr.power_supply.length + 0 = RawHeaders.empty.power_supply.length + n :=
    parseNodes_field_len (fun x => x.power_supply.length)
      (fun x nd => by simp [RawHeaders.push]) nodes 0 RawHeaders.empty none n hdr cap h
  have t5 : hdr.fsample.length + 0 = RawHeaders.empty.fsample.length + n :=
    parseNodes_field_len (fun x => x.fsample.length)
      (fun x nd => by simp [RawHeaders.push]) nodes 0 RawHeaders.empty none n hdr cap h
  have t6 : hdr.ad_bits.length + 0 = RawHeaders.empty.ad_bits.length + n :=
    parseNodes_field_len (fun x => x.ad_bits.length)
      (fun x nd => by simp [RawHeaders.push]) nodes 0 RawHeaders.empty none n hdr cap h
  have t7 : hdr.signal_gain.length + 0 = RawHeaders.empty.signal_gain.length + n :=
    parseNodes_field_len (fun x => x.signal_gain.length)
      (fun x nd => by simp [RawHeaders.push]) nodes 0 RawHeaders.empty none n hdr cap h
  have t8 : hdr.low_pass_filter.length + 0 = RawHeaders.empty.low_pass_filter.length + n :=
    parseNodes_field_len (fun x => x.low_pass_filter.length)
      (fun x nd => by simp [RawHeaders.push]) nodes 0 RawHeaders.empty none n hdr cap h
  have t9 : hdr.high_pass_filter.length + 0 = RawHeaders.empty.high_pass_filter.length + n :=
    parseNodes_field_len (fun x => x.high_pass_filter.length)
      (fun x nd => by simp [RawHeaders.push]) nodes 0 RawHeaders.empty none n hdr cap h
  simp only [RawHeaders.empty, List.length_nil] at t1 t2 t3 t4 t5 t6 t7 t8 t9
  exact ⟨by omega, by omega, by omega, by omega, by omega, by omega, by omega, by omega,
    by omega, by omega⟩

/-- C10 witness: on the two-channel archive `a2` all nine header lists have
length 2, the number of selected channels. -/
theorem C10_header_lengths_witness :
    2 = (a2.nodes.filter fun nd => decide (nd.plugin = some "LoaderOTComm")).length ∧
    hdr2.track_index.length = 2 ∧ hdr2.description.length = 2 ∧
    hdr2.unity_of_measurement.length = 2 ∧ hdr2.power_supply.length = 2 ∧
    hdr2.fsample.length = 2 ∧ hdr2.ad_bits.length = 2 ∧
    hdr2.signal_gain.length = 2 ∧ hdr2.low_pass_filter.length = 2 ∧
    hdr2.high_pass_filter.length = 2 :=
  C10_header_lengths a2.nodes 2 hdr2 (some c2) (by with_unfolding_all rfl)

/-! ## C1: malformed metadata -/

theorem parseNodes_no_sel {nodes : List SignalNode}
    (hall : ∀ nd ∈ nodes, ∃ p, nd.plugin = some p ∧ p ≠ "LoaderOTComm") :
    ∀ n hdr cap, parseNodes nodes n hdr cap = .ok (n, hdr, cap) := by
  induction nodes with
  | nil => intro n hdr cap; rfl
  | cons nd rest ih =>
    intro n hdr cap
    rcases hall nd (List.mem_cons_self nd rest) with ⟨p, hp, hne⟩
    rw [parseNodes, hp]
    dsimp only
    rw [if_neg hne]
    exact ih (fun x hx => hall x (List.mem_cons_of_mem nd hx)) n hdr cap

theorem core_eq_bind {fs : FS} {arch : Archive}
    (hy : fs.yaml = none) (hc : fs.csv = none) :
    core fs arch = (parseNodes arch.nodes 0 RawHeaders.empty none).bind
      fun r => corePost fs arch r.2.1 r.2.2 := by
  unfold core
  rw [hy, hc]
  rw [if_neg (by simp)]
  cases hp : parseNodes arch.nodes 0 RawHeaders.empty none with
  | ok r => rcases r with ⟨a, b, c⟩; rfl
  | error e => rfl

/-- C1 (amended): when the metadata contains no channel node of the
acquisition plugin kind, the conversion does raise an error before decoding
and writes nothing — but it is Python's `UnboundLocalError` from referencing
`signal_path`, not a purpose-built `MalformedArchive` signal; and when
`signal_path` or `track_totalnumber` is absent from the metadata of the first
selected channel, the conversion halts before decoding and writes no output
files, but silently: it raises no error at all. -/
theorem C1_malformed (fs : FS) (arch : Archive)
    (hy : fs.yaml = none) (hc : fs.csv = none) :
    ((∀ nd ∈ arch.nodes, ∃ p, nd.plugin = some p ∧ p ≠ "LoaderOTComm") →
      otread fs arch = (fs, some .unboundLocal)) ∧
    (∀ n hdr c, parseNodes arch.nodes 0 RawHeaders.empty none = .ok (n, hdr, some c) →
      c.signal_path = none ∨ c.track_totalnumber = .absent →
      otread fs arch = (fs, none)) := by
  constructor
  · intro hall
    have hcore : core fs arch = .error .unboundLocal := by
      rw [core_eq_bind hy hc, parseNodes_no_sel hall 0 RawHeaders.empty none]
      rfl
    unfold otread
    rw [hcore]
  · intro n hdr c hp hskip
    have hcore : core fs arch = .ok fs := by
      rw [core_eq_bind hy hc, hp]
      show corePost fs arch hdr (some c) = .ok fs
      unfold corePost
      rcases c with ⟨csp, cttv, cts⟩
      rcases hskip with hsp | htt
      · cases hsp
        rfl
      · cases csp with
        | none => rfl
        | some sp =>
          dsimp only at htt ⊢
          rw [htt]
          rfl
    unfold otread
    rw [hcore]

/-- C1 witness: the archive `aProcOnly` (its only node is of the
real-time-processing plugin kind, so no channel is selected) makes the
conversion raise `UnboundLocalError` with nothing written; and the archive
`aNoPath` (selected channel but no `signal_path` tag) makes it return
silently with nothing written. -/
theorem C1_malformed_witness :
    otread fs0 aProcOnly = (fs0, some .unboundLocal) ∧
    otread fs0 aNoPath = (fs0, none) := by
  constructor
  · exact (C1_malformed fs0 aProcOnly rfl rfl).1
      (by intro nd hnd; fin_cases hnd; exact ⟨"LoaderProcessing", rfl, by decide⟩)
  · exact (C1_malformed fs0 aNoPath rfl rfl).2 1
      ⟨[.intText 0], [.absent], [.text "V"], [5], [.intText 1000], [.intText 12],
       [.intText 2], [.intText 0], [.intText 500]⟩
      ⟨none, .intText 1, 1 / 1000⟩ (by with_unfolding_all rfl) (Or.inl rfl)

/-- C1 counterexample: on the archive `aNoPath`, whose (selected) first
channel lacks the `signal_path` tag, the conversion does NOT signal any
error: it returns with no error and no output files written — a silent no-op,
where the claim requires a raised, distinguishable `MalformedArchive` error. -/
theorem C1_counterexample :
    (aNoPath.nodes.get ⟨0, by decide⟩).plugin = some "LoaderOTComm" ∧
    (aNoPath.nodes.get ⟨0, by decide⟩).signal_path = none ∧
    otread fs0 aNoPath = (fs0, none) := by
  refine ⟨by decide, by decide, by with_unfolding_all rfl⟩

/-- C4 witness: the concrete archive `aBadUnit` (unit text `"W"`) raises
`UnrecognizedUnit` and, by the theorem, the filesystem is unchanged: both
output files still do not exist. -/
theorem C4_unit_factor_witness :
    unitFactor (.text "W") = .error .unrecognizedUnit ∧
    otread fs0 aBadUnit = (fs0, some .unrecognizedUnit) ∧
    (otread fs0 aBadUnit).1 = fs0 := by
  refine ⟨(C4_unit_factor.1 (.text "W")).2.2 (by decide) (by decide), by decide, ?_⟩
  exact C4_unit_factor.2.2 fs0 aBadUnit (otread fs0 aBadUnit).1 .unrecognizedUnit (by decide)

/-! ## Inversion of the write path -/

theorem coreDecode_ok {arch : Archive} {hdr : RawHeaders} {sp : String}
    {ttv : FieldVal} {ts : ℚ} {fs' : FS}
    (h : coreDecode arch hdr sp ttv ts = .ok fs') :
    ∃ ti fsm adb sg lpf hpf tt bytes ints mat sel cal,
      npIntArray hdr.track_index = .ok ti ∧
      npFloatArray hdr.fsample = .ok fsm ∧
      npIntArray hdr.ad_bits = .ok adb ∧
      npFloatArray hdr.signal_gain = .ok sg ∧
      npFloatArray hdr.low_pass_filter = .ok lpf ∧
      npFloatArray hdr.high_pass_filter = .ok hpf ∧
      pyInt ttv = .ok tt ∧
      openFile arch.files sp = .ok bytes ∧
      int16sOf bytes = .ok ints ∧
      reshapeCols (ints.map intToFloat) tt = .ok mat ∧
      selectCols mat ti tt = .ok sel ∧
      calibrateAll sel hdr.unity_of_measurement
        (hdr.power_supply.map intToFloat) adb sg = .ok cal ∧
      fs' = ⟨some ⟨ti, hdr.description, hdr.unity_of_measurement,
                   hdr.power_supply.map intToFloat,
                   fsm, adb, sg, lpf, hpf⟩,
             some (appendTime cal ts)⟩ := by
  rw [coreDecode] at h
  rcases exceptBind_ok h with ⟨ti, hti, h⟩
  rcases exceptBind_ok h with ⟨fsm, hfsm, h⟩
  rcases exceptBind_ok h with ⟨adb, hadb, h⟩
  rcases exceptBind_ok h with ⟨sg, hsg, h⟩
  rcases exceptBind_ok h with ⟨lpf, hlpf, h⟩
  rcases exceptBind_ok h with ⟨hpf, hhpf, h⟩
  rcases exceptBind_ok h with ⟨tt, htt, h⟩
  rcases exceptBind_ok h with ⟨bytes, hbytes, h⟩
  rcases exceptBind_ok h with ⟨ints, hints, h⟩
  rcases exceptBind_ok h with ⟨mat, hmat, h⟩
  rcases exceptBind_ok h with ⟨sel, hsel, h⟩
  rcases exceptBind_ok h with ⟨cal, hcal, h⟩
  cases h
  exact ⟨ti, fsm, adb, sg, lpf, hpf, tt, bytes, ints, mat, sel, cal,
    hti, hfsm, hadb, hsg, hlpf, hhpf, htt, hbytes, hints, hmat, hsel, hcal, rfl⟩

theorem corePost_ok_write {fs : FS} {arch : Archive} {hdr : RawHeaders}
    {cap : Option Common} {hy : HeadersOut} {m : List (List PyFloat)}
    (hfs : fs.yaml = none)
    (h : corePost fs arch hdr cap = .ok ⟨some hy, some m⟩) :
    ∃ c sp, cap = some c ∧ c.signal_path = some sp ∧
      c.track_totalnumber ≠ .absent ∧
      coreDecode arch hdr sp c.track_totalnumber c.timestep = .ok ⟨some hy, some m⟩ := by
  match cap with
  | none => exact Except.noConfusion h
  | some c =>
    rcases c with ⟨csp, cttv, cts⟩
    match csp with
    | none =>
      rw [corePost] at h
      have hfs' : fs = ⟨some hy, some m⟩ := Except.ok.inj h
      rw [hfs'] at hfs
      cases hfs
    | some sp =>
      rw [corePost] at h
      dsimp only at h
      by_cases htt : cttv = FieldVal.absent
      · rw [if_pos htt] at h
        have hfs' : fs = ⟨some hy, some m⟩ := Except.ok.inj h
        rw [hfs'] at hfs
        cases hfs
      · rw [if_neg htt] at h
        exact ⟨⟨some sp, cttv, cts⟩, sp, rfl, rfl, htt, h⟩

theorem core_ok_write {fs : FS} {arch : Archive} {fs' : FS} {m : List (List PyFloat)}
    (h : core fs arch = .ok fs') (hm : fs'.csv = some m) :
    fs.yaml = none ∧ fs.csv = none ∧
    ∃ hy n hdr c sp,
      fs' = ⟨some hy, some m⟩ ∧
      parseNodes arch.nodes 0 RawHeaders.empty none = .ok (n, hdr, some c) ∧
      c.signal_path = some sp ∧ c.track_totalnumber ≠ .absent ∧
      coreDecode arch hdr sp c.track_totalnumber c.timestep = .ok ⟨some hy, some m⟩ := by
  cases hfy : fs.yaml with
  | some v => rw [core_guard (by simp [hfy])] at h; exact Except.noConfusion h
  | none =>
    cases hfc : fs.csv with
    | some v => rw [core_guard (by simp [hfc])] at h; exact Except.noConfusion h
    | none =>
      rw [core_eq_bind hfy hfc] at h
      rcases exceptBind_ok h with ⟨⟨n, hdr, cap⟩, hp, h⟩
      rcases fs' with ⟨fy', fc'⟩
      cases hm
      cases hfy' : fy' with
      | none =>
        exfalso
        dsimp only at h
        rw [hfy'] at h
        rcases cap with _ | c
        · exact Except.noConfusion h
        · rcases c with ⟨csp, cttv, cts⟩
          match csp with
          | none =>
            rw [corePost] at h
            have : fs = ⟨none, some m⟩ := Except.ok.inj h
            rw [this] at hfc
            cases hfc
          | some sp =>
            rw [corePost] at h
            dsimp only at h
            by_cases htt : cttv = FieldVal.absent
            · rw [if_pos htt] at h
              have : fs = ⟨none, some m⟩ := Except.ok.inj h
              rw [this] at hfc
              cases hfc
            · rw [if_neg htt] at h
              rcases coreDecode_ok h with
                ⟨ti, fsm, adb, sg, lpf, hpf, tt, bytes, ints, mat, sel, cal,
                 _, _, _, _, _, _, _, _, _, _, _, _, hout⟩
              exact Option.noConfusion (congrArg FS.yaml hout)
      | some hy =>
        subst hfy'
        rcases corePost_ok_write hfy (by exact h) with ⟨c, sp, hcap, hsp, htt, hdec⟩
        subst hcap
        exact ⟨rfl, rfl, hy, n, hdr, c, sp, rfl, hp, hsp, htt, hdec⟩

/-! ## C3: the calibration transform -/

theorem calibParams_get :
    ∀ {us : List FieldVal} {bs : List Int} {ps : List (ℚ × ℚ)},
      calibParams us bs = .ok ps →
      ∀ j u b, us.get? j = some u → bs.get? j = some b →
        ∃ f, unitFactor u = .ok f ∧ 0 ≤ b ∧ ps.get? j = some (f, (2 : ℚ) ^ b.toNat) := by
  intro us
  induction us with
  | nil =>
    intro bs ps h j u b hu hb
    cases hu
  | cons v vs ih =>
    intro bs ps h j u b hu hb
    match bs with
    | [] => cases hb
    | b0 :: bs0 =>
      rw [calibParams] at h
      split at h
      · cases h
      · rename_i f hf
        split at h
        · split at h
          · cases h
          · rename_i rest hrest
            cases h
            match j with
            | 0 =>
              cases hu
              cases hb
              exact ⟨f, hf, by assumption, rfl⟩
            | j + 1 =>
              exact ih hrest j u b hu hb
        · cases h

theorem calibRow_get :
    ∀ (row psA : List PyFloat) (params : List (ℚ × ℚ)) (sg : List PyFloat)
      (j : Nat) (x ps : PyFloat) (fpw : ℚ × ℚ) (g : PyFloat),
      row.get? j = some x → psA.get? j = some ps → params.get? j = some fpw →
      sg.get? j = some g →
      (calibRow row psA params sg).get? j = some (calibEntry x ps fpw.2 fpw.1 g) := by
  intro row
  induction row with
  | nil => intro psA params sg j x ps fpw g hx; cases hx
  | cons x0 xs ih =>
    intro psA params sg j x ps fpw g hx hps hfpw hg
    match psA, params, sg with
    | [], _, _ => cases hps
    | _ :: _, [], _ => cases hfpw
    | _ :: _, _ :: _, [] => cases hg
    | ps0 :: pss, (f0, pw0) :: rest, g0 :: gs =>
      match j with
      | 0 =>
        cases hx; cases hps; cases hfpw; cases hg
        rfl
      | j + 1 =>
        exact ih pss rest gs j x ps fpw g hx hps hfpw hg

theorem calibEntry_fin {x ps f g pw : ℚ} (hpw : pw ≠ 0) (hg : g ≠ 0) :
    calibEntry (.fin x) (.fin ps) pw f (.fin g) = .fin (x * ps / pw * f / g) := by
  rw [calibEntry]
  show (((PyFloat.fin (x * ps)).div (.fin pw)).mul (.fin f)).div (.fin g) = _
  rw [PyFloat.div]
  rw [if_neg hpw]
  show ((PyFloat.fin (x * ps / pw * f)).div (.fin g)) = _
  rw [PyFloat.div]
  rw [if_neg hg]

/-- C3: given a successful calibration, every exported entry of channel
column `n` equals `raw * power_supply / 2 ^ ad_bits * factor / signal_gain`
computed left to right in that order; in particular, raw value `2048` with
`power_supply = 5`, `ad_bits = 12`, unit `"V"` (factor `1`) and
`signal_gain = 2` calibrates to exactly `1.25`. -/
theorem C3_calibration :
    (∀ (sel : List (List PyFloat)) (unity : List FieldVal) (psA sg : List PyFloat)
       (adb : List Int) (cal : List (List PyFloat)),
      calibrateAll sel unity psA adb sg = .ok cal →
      ∀ (i j : Nat) (row : List PyFloat), sel.get? i = some row →
      ∀ (x ps g f : ℚ) (b : Nat) (u : FieldVal),
        row.get? j = some (.fin x) →
        psA.get? j = some (.fin ps) →
        unity.get? j = some u → unitFactor u = .ok f →
        adb.get? j = some ((b : Nat) : Int) →
        sg.get? j = some (.fin g) → g ≠ 0 →
        ∃ crow, cal.get? i = some crow ∧
          crow.get? j = some (.fin (x * ps / 2 ^ b * f / g))) ∧
    calibEntry (.fin 2048) (.fin 5) (2 ^ 12) 1 (.fin 2) = .fin 1.25 := by
  constructor
  · intro sel unity psA sg adb cal hok i j row hrow x ps g f b u hx hps hu hf hb hg hgne
    rw [calibrateAll] at hok
    rcases exceptBind_ok hok with ⟨params, hparams, hok⟩
    cases hok
    rcases calibParams_get hparams j u _ hu hb with ⟨f', hf', hb0, hpj⟩
    rw [hf] at hf'
    cases hf'
    refine ⟨calibRow row psA params sg, by rw [List.get?_eq_getElem?] at hrow ⊢; rw [List.getElem?_map, hrow]; rfl, ?_⟩
    have := calibRow_get row psA params sg j (.fin x) (.fin ps)
      (f, (2 : ℚ) ^ ((b : Nat) : Int).toNat) (.fin g) hx hps hpj hg
    rw [this]
    have hcast : (((b : Nat) : Int).toNat) = b := Int.toNat_natCast b
    rw [hcast]
    rw [calibEntry_fin (by positivity) hgne]
  · have : (1.25 : ℚ) = 5 / 4 := by norm_num
    rw [this]
    rw [@calibEntry_fin 2048 5 1 2 ((2 : ℚ) ^ 12) (by positivity) (by norm_num)]
    norm_num

/-- C3 witness: the calibration scenario of the claim run through
`calibrateAll` on a one-entry matrix: `2048 * 5 / 2 ^ 12 * 1 / 2 = 1.25`. -/
theorem C3_calibration_witness :
    ∃ crow, [[PyFloat.fin (5 / 4)]].get? 0 = some crow ∧
      crow.get? 0 = some (.fin ((2048 : ℚ) * 5 / 2 ^ 12 * 1 / 2)) :=
  C3_calibration.1 [[.fin 2048]] [.text "V"] [.fin 5] [.fin 2] [12]
    [[.fin (5 / 4)]] (by with_unfolding_all rfl) 0 0 [.fin 2048] rfl
    2048 5 2 1 12 (.text "V") rfl rfl rfl rfl rfl rfl (by norm_num)

/-! ## C6: int16 decode and row-major reshape -/

theorem int16sOf_ok : ∀ {bytes : List Nat} {ints : List Int},
    int16sOf bytes = .ok ints →
    2 * ints.length = bytes.length ∧
    ∀ k lo hi, bytes.get? (2 * k) = some lo → bytes.get? (2 * k + 1) = some hi →
      ints.get? k = some (decode16 lo hi)
  | [], ints, h => by
    cases h
    exact ⟨rfl, fun k lo hi h1 _ => by cases h1⟩
  | [_], ints, h => by cases h
  | lo :: hi :: rest, ints, h => by
    rw [int16sOf] at h
    rcases exceptBind_ok h with ⟨xs, hxs, h⟩
    cases h
    rcases int16sOf_ok hxs with ⟨hlen, hidx⟩
    refine ⟨by simp only [List.length_cons]; omega, ?_⟩
    intro k lo' hi' h1 h2
    match k with
    | 0 =>
      rw [Nat.mul_zero, List.get?_cons_zero] at h1
      rw [Nat.mul_zero, Nat.zero_add, List.get?_cons_succ, List.get?_cons_zero] at h2
      cases h1
      cases h2
      rfl
    | k + 1 =>
      rw [show 2 * (k + 1) = 2 * k + 1 + 1 by ring, List.get?_cons_succ,
        List.get?_cons_succ] at h1
      rw [show 2 * (k + 1) + 1 = 2 * k + 1 + 1 + 1 by ring, List.get?_cons_succ,
        List.get?_cons_succ] at h2
      rw [List.get?_cons_succ]
      exact hidx k lo' hi' h1 h2

theorem chunksAux_length : ∀ (r k : Nat) (l : List PyFloat),
    (chunksAux r k l).length = r := by
  intro r
  induction r with
  | zero => intro k l; rfl
  | succ r ih => intro k l; simp [chunksAux, ih]

theorem chunksAux_get : ∀ (r : Nat) (k : Nat) (l : List PyFloat) (i : Nat),
    (chunksAux r k l).get? i =
      if i < r then some ((l.drop (i * k)).take k) else none := by
  intro r
  induction r with
  | zero => intro k l i; simp [chunksAux]
  | succ r ih =>
    intro k l i
    match i with
    | 0 =>
      rw [chunksAux, List.get?_cons_zero, if_pos (Nat.succ_pos r), Nat.zero_mul,
        List.drop_zero]
    | i + 1 =>
      rw [chunksAux, List.get?_cons_succ, ih k (l.drop k) i]
      by_cases hir : i < r
      · rw [if_pos hir, if_pos (Nat.succ_lt_succ hir)]
        rw [List.drop_drop]
        rw [Nat.succ_mul, Nat.add_comm (i * k) k]
      · rw [if_neg hir, if_neg (fun hh => hir (Nat.lt_of_succ_lt_succ hh))]

/-- C6: the byte stream decodes as consecutive 2-byte little-endian signed
16-bit integers; with a positive column count `tt` that does not divide the
sample count the reshape raises the fatal `ValueError` (`DecodeShapeMismatch`)
and — every raised error leaving the filesystem unchanged — no output files
are written; and under the divisibility precondition the reshape cannot fail:
it yields the row-major `tt`-column matrix. -/
theorem C6_decode_reshape :
    (∀ (bytes : List Nat) (ints : List Int), int16sOf bytes = .ok ints →
      2 * ints.length = bytes.length ∧
      ∀ k lo hi, bytes.get? (2 * k) = some lo → bytes.get? (2 * k + 1) = some hi →
        ints.get? k = some (decode16 lo hi)) ∧
    (∀ (flat : List PyFloat) (tt : Int), 0 < tt → ¬ (tt.toNat ∣ flat.length) →
      reshapeCols flat tt = .error .valueError) ∧
    (∀ (flat : List PyFloat) (tt : Int), 0 < tt → tt.toNat ∣ flat.length →
      ∃ mat, reshapeCols flat tt = .ok mat ∧
        mat.length = flat.length / tt.toNat ∧
        (∀ row ∈ mat, row.length = tt.toNat) ∧
        ∀ i j, i < flat.length / tt.toNat → j < tt.toNat →
          ∃ row, mat.get? i = some row ∧ row.get? j = flat.get? (i * tt.toNat + j)) ∧
    (∀ fs arch fs' e, otread fs arch = (fs', some e) → fs' = fs) := by
  refine ⟨fun bytes ints h => int16sOf_ok h, ?_, ?_,
    fun fs arch fs' e h => otread_error_unchanged h⟩
  · intro flat tt h0 hdvd
    rw [reshapeCols, if_neg]
    rintro ⟨-, hmod⟩
    exact hdvd (Nat.dvd_of_mod_eq_zero hmod)
  · intro flat tt h0 hdvd
    have hk : 0 < tt.toNat := by omega
    have hmod : flat.length % tt.toNat = 0 := by
      rcases hdvd with ⟨c, hc⟩
      rw [hc]
      exact Nat.mul_mod_right _ _
    refine ⟨chunksAux (flat.length / tt.toNat) tt.toNat flat, ?_,
      chunksAux_length _ _ _, ?_, ?_⟩
    · rw [reshapeCols, if_pos ⟨h0, hmod⟩]
    · intro row hrow
      rw [List.mem_iff_get?] at hrow
      rcases hrow with ⟨i, hi⟩
      rw [chunksAux_get] at hi
      by_cases hir : i < flat.length / tt.toNat
      · rw [if_pos hir] at hi
        cases hi
        have hlen : flat.length = flat.length / tt.toNat * tt.toNat :=
          (Nat.div_mul_cancel hdvd).symm
        have hle : i * tt.toNat + tt.toNat ≤ flat.length := by
          have h2 : (i + 1) * tt.toNat ≤ flat.length / tt.toNat * tt.toNat :=
            Nat.mul_le_mul_right _ hir
          rw [Nat.succ_mul] at h2
          omega
        rw [List.length_take, List.length_drop]
        omega
      · rw [if_neg hir] at hi
        cases hi
    · intro i j hi hj
      refine ⟨(flat.drop (i * tt.toNat)).take tt.toNat, ?_, ?_⟩
      · rw [chunksAux_get, if_pos hi]
      · rw [List.get?_take hj, List.get?_drop]

/-- C6 witness: the four bytes `01 00 02 00` decode to the int16 samples
`[1, 2]` (2 bytes each); three samples do not tile 2 columns, so reshape
raises `ValueError`; and on the archive `aNonDiv` (6 raw bytes = 3 samples,
`track_totalnumber = 2`) the whole conversion raises that error and leaves
the filesystem unchanged — no output files. -/
theorem C6_decode_reshape_witness :
    2 * ([1, 2] : List Int).length = ([1, 0, 2, 0] : List Nat).length ∧
    reshapeCols [PyFloat.fin 1, .fin 2, .fin 3] 2 = .error .valueError ∧
    otread fs0 aNonDiv = (fs0, some .valueError) ∧
    (otread fs0 aNonDiv).1 = fs0 := by
  refine ⟨(C6_decode_reshape.1 [1, 0, 2, 0] [1, 2] (by decide)).1,
    C6_decode_reshape.2.1 [.fin 1, .fin 2, .fin 3] 2 (by decide) (by decide),
    by with_unfolding_all rfl, ?_⟩
  exact C6_decode_reshape.2.2.2 fs0 aNonDiv (otread fs0 aNonDiv).1 .valueError
    (by with_unfolding_all rfl)

/-! ## C8: round trip through a synthesized buffer -/

theorem decode16_encode16 {v : Int} (h1 : -32768 ≤ v) (h2 : v < 32768) :
    decode16 ((v % 65536).toNat % 256) ((v % 65536).toNat / 256) = v := by
  simp only [decode16]
  split <;> omega

theorem int16sOf_encode_flat : ∀ {flat : List Int},
    (∀ v ∈ flat, -32768 ≤ v ∧ v < 32768) →
    int16sOf (flat.bind encode16) = .ok flat := by
  intro flat
  induction flat with
  | nil => intro _; rfl
  | cons v vs ih =>
    intro hall
    have hcons : (v :: vs).bind encode16 =
        (v % 65536).toNat % 256 :: (v % 65536).toNat / 256 :: vs.bind encode16 := rfl
    rw [hcons, int16sOf]
    rcases hall v (List.mem_cons_self v vs) with ⟨h1, h2⟩
    rw [ih fun w hw => hall w (List.mem_cons_of_mem v hw)]
    show Except.ok (decode16 _ _ :: vs) = _
    rw [decode16_encode16 h1 h2]

theorem length_flatten_uniform : ∀ {rows : List (List PyFloat)} {k : Nat},
    (∀ r ∈ rows, r.length = k) → rows.flatten.length = rows.length * k := by
  intro rows k
  induction rows with
  | nil => intro _; simp
  | cons r rs ih =>
    intro hall
    rw [List.flatten_cons, List.length_append, List.length_cons,
      hall r (List.mem_cons_self r rs), ih fun w hw => hall w (List.mem_cons_of_mem r hw),
      Nat.succ_mul, Nat.add_comm]

theorem chunksAux_flatten_uniform : ∀ (rows : List (List PyFloat)) (k : Nat),
    (∀ r ∈ rows, r.length = k) →
    chunksAux rows.length k rows.flatten = rows := by
  intro rows k
  induction rows with
  | nil => intro _; rfl
  | cons r rs ih =>
    intro hall
    rw [List.length_cons, List.flatten_cons, chunksAux]
    have hr : r.length = k := hall r (List.mem_cons_self r rs)
    rw [List.take_left' hr, List.drop_left' hr,
      ih fun w hw => hall w (List.mem_cons_of_mem r hw)]

theorem reshapeCols_flatten_uniform {rows : List (List PyFloat)} {k : Nat} (hk : 0 < k)
    (hall : ∀ r ∈ rows, r.length = k) :
    reshapeCols rows.flatten (k : Int) = .ok rows := by
  have hlen : rows.flatten.length = rows.length * k := length_flatten_uniform hall
  have htn : ((k : Int)).toNat = k := Int.toNat_natCast k
  rw [reshapeCols, if_pos]
  · rw [htn, hlen, Nat.mul_div_cancel _ hk, chunksAux_flatten_uniform rows k hall]
  · constructor
    · exact_mod_cast hk
    · rw [htn, hlen]
      exact Nat.mul_mod_left _ _

theorem selectCols_idx02 {mat : List (List PyFloat)} {M : Nat} (hM : 2 < M) :
    selectCols mat [0, 2] (M : Int) =
      .ok (mat.map fun row => [row.getD 0 .nan, row.getD 2 .nan]) := by
  have hM' : (2 : Int) < (M : Int) := by exact_mod_cast hM
  rw [selectCols, if_pos]
  · rfl
  · rw [List.all_cons, List.all_cons, List.all_nil]
    simp only [effIdx, Bool.and_true, Bool.and_eq_true, decide_eq_true_eq]
    rw [if_neg (by omega : ¬ ((0 : Int) < 0)), if_neg (by omega : ¬ ((2 : Int) < 0))]
    refine ⟨⟨by omega, by omega⟩, by omega, by omega⟩

/-- C8: decoding the synthesized raw byte buffer of the `N × M` integer ramp
with `track_totalnumber = M` recovers exactly the ramp samples, the reshape
has `N` rows, and fancy-indexing with channel indices `[0, 2]` selects exactly
columns 0 and 2 in that order. -/
theorem C8_roundtrip (N M : Nat) (hM : 2 < M) (hNM : N * M ≤ 32768) :
    ∃ mat selm,
      int16sOf (rawBufferOf (ramp N M)) = .ok (ramp N M).flatten ∧
      reshapeCols ((ramp N M).flatten.map intToFloat) (M : Int) = .ok mat ∧
      selectCols mat [0, 2] (M : Int) = .ok selm ∧
      mat.length = N ∧ selm.length = N ∧
      ∀ i, i < N → selm.get? i =
        some [.fin ((i * M : Nat) : ℚ), .fin ((i * M + 2 : Nat) : ℚ)] := by
  have hbounds : ∀ v ∈ (ramp N M).flatten, -32768 ≤ v ∧ v < 32768 := by
    intro v hv
    rw [List.mem_flatten] at hv
    rcases hv with ⟨row, hrow, hv⟩
    rw [ramp, List.mem_map] at hrow
    rcases hrow with ⟨i, hi, rfl⟩
    rw [List.mem_map] at hv
    rcases hv with ⟨j, hj, rfl⟩
    rw [List.mem_range] at hi hj
    have hlt : i * M + j < N * M := by
      have h1 : i * M + j < (i + 1) * M := by rw [Nat.succ_mul]; omega
      have h2 : (i + 1) * M ≤ N * M := Nat.mul_le_mul_right _ hi
      omega
    constructor
    · have : (0 : Int) ≤ ((i * M + j : Nat) : Int) := Int.natCast_nonneg _
      omega
    · have hc1 : ((i * M + j : Nat) : Int) < ((N * M : Nat) : Int) := by exact_mod_cast hlt
      have hc2 : ((N * M : Nat) : Int) ≤ 32768 := by exact_mod_cast hNM
      omega
  have hrows : ∀ r ∈ rampF N M, r.length = M := by
    intro r hr
    rw [rampF, List.mem_map] at hr
    rcases hr with ⟨row, hrow, rfl⟩
    rw [ramp, List.mem_map] at hrow
    rcases hrow with ⟨i, _, rfl⟩
    rw [List.length_map, List.length_map, List.length_range]
  have hflat : (ramp N M).flatten.map intToFloat = (rampF N M).flatten :=
    List.map_flatten ..
  have hRlen : (rampF N M).length = N := by
    rw [rampF, List.length_map, ramp, List.length_map, List.length_range]
  refine ⟨rampF N M, (rampF N M).map fun row => [row.getD 0 .nan, row.getD 2 .nan],
    int16sOf_encode_flat hbounds, ?_, selectCols_idx02 hM, hRlen,
    by rw [List.length_map, hRlen], ?_⟩
  · rw [hflat]
    exact reshapeCols_flatten_uniform (by omega) hrows
  · intro i hi
    have hget : (rampF N M).get? i =
        some (((List.range M).map fun j => ((i * M + j : Nat) : Int)).map intToFloat) := by
      rw [rampF, ramp, List.get?_eq_getElem?, List.getElem?_map, List.getElem?_map,
        List.getElem?_range hi]
      rfl
    rw [List.get?_eq_getElem?, List.getElem?_map, ← List.get?_eq_getElem?, hget]
    rw [Option.map_some']
    have hg0 : (((List.range M).map fun j => ((i * M + j : Nat) : Int)).map intToFloat).getD
        0 .nan = .fin ((i * M : Nat) : ℚ) := by
      rw [List.getD, List.get?_eq_getElem?, List.getElem?_map, List.getElem?_map,
        List.getElem?_range (by omega : 0 < M)]
      rw [show (some (0 : Nat)).map (fun j => ((i * M + j : Nat) : Int)) = some ((i * M + 0 : Nat) : Int) from rfl]
      rw [show i * M + 0 = i * M from rfl]
      rfl
    have hg2 : (((List.range M).map fun j => ((i * M + j : Nat) : Int)).map intToFloat).getD
        2 .nan = .fin ((i * M + 2 : Nat) : ℚ) := by
      rw [List.getD, List.get?_eq_getElem?, List.getElem?_map, List.getElem?_map,
        List.getElem?_range (by omega : 2 < M)]
      rfl
    rw [hg0, hg2]

/-- C8 witness: the `2 × 4` ramp — decoding its 16-byte buffer with
`track_totalnumber = 4` and selecting channels `{0, 2}` yields 2 rows holding
columns 0 and 2: `[[0, 2], [4, 6]]`. -/
theorem C8_roundtrip_witness :
    ∃ mat selm,
      int16sOf (rawBufferOf (ramp 2 4)) = .ok (ramp 2 4).flatten ∧
      reshapeCols ((ramp 2 4).flatten.map intToFloat) (4 : Int) = .ok mat ∧
      selectCols mat [0, 2] (4 : Int) = .ok selm ∧
      mat.length = 2 ∧ selm.length = 2 ∧
      ∀ i, i < 2 → selm.get? i =
        some [.fin ((i * 4 : Nat) : ℚ), .fin ((i * 4 + 2 : Nat) : ℚ)] :=
  C8_roundtrip 2 4 (by decide) (by decide)

/-! ## C5: the time column -/

theorem parseNodes_cap_some : ∀ {nodes : List SignalNode} {c : Common}
    {n : Nat} {hdr : RawHeaders} {n' : Nat} {hdr' : RawHeaders} {cap' : Option Common},
    0 < n →
    parseNodes nodes n hdr (some c) = .ok (n', hdr', cap') → cap' = some c := by
  intro nodes
  induction nodes with
  | nil =>
    intro c n hdr n' hdr' cap' hn h
    cases h
    rfl
  | cons nd rest ih =>
    intro c n hdr n' hdr' cap' hn h
    rcases parseNodes_cons_ok h with ⟨p, hp, hcase⟩
    rcases hcase with ⟨_, h2⟩ | ⟨_, hn0, q, hq, hq0, h2⟩ | ⟨_, _, h2⟩
    · exact ih hn h2
    · omega
    · exact ih (by omega) h2

theorem parseNodes_none_cap : ∀ {nodes : List SignalNode} {hdr : RawHeaders}
    {n' : Nat} {hdr' : RawHeaders} {c : Common},
    parseNodes nodes 0 hdr none = .ok (n', hdr', some c) →
    ∃ nd q, selHead nodes = some nd ∧ pyFloat nd.fsample = .ok q ∧ q ≠ 0 ∧
      c = ⟨nd.signal_path, nd.track_totalnumber, 1 / q⟩ := by
  intro nodes
  induction nodes with
  | nil =>
    intro hdr n' hdr' c h
    simp [parseNodes] at h
  | cons nd rest ih =>
    intro hdr n' hdr' c h
    rcases parseNodes_cons_ok h with ⟨p, hp, hcase⟩
    rcases hcase with ⟨hne, h2⟩ | ⟨hsel, _, q, hq, hq0, h2⟩ | ⟨_, hn0, _⟩
    · rcases ih h2 with ⟨nd0, q, hhead, hq, hq0, hc⟩
      refine ⟨nd0, q, ?_, hq, hq0, hc⟩
      have hcond : (decide (nd.plugin = some "LoaderOTComm")) = false := by
        rw [decide_eq_false_iff_not, hp]
        intro hh
        exact hne (Option.some.inj hh)
      rw [selHead, List.filter_cons, hcond]
      rw [if_neg Bool.false_ne_true]
      exact hhead
    · subst hsel
      have hcap := parseNodes_cap_some Nat.one_pos h2
      have hcond : (decide (nd.plugin = some "LoaderOTComm")) = true := by
        rw [decide_eq_true_eq, hp]
      refine ⟨nd, q, ?_, hq, hq0, (Option.some.inj hcap)⟩
      rw [selHead, List.filter_cons, hcond, if_pos rfl]
      rfl
    · exact absurd rfl hn0

theorem appendTimeAux_length (ts : ℚ) : ∀ (cal : List (List PyFloat)) (i0 : Nat),
    (appendTimeAux ts i0 cal).length = cal.length := by
  intro cal
  induction cal with
  | nil => intro i0; rfl
  | cons row rest ih => intro i0; rw [appendTimeAux, List.length_cons, ih, List.length_cons]

theorem appendTimeAux_get (ts : ℚ) : ∀ (cal : List (List PyFloat)) (i0 i : Nat),
    (appendTimeAux ts i0 cal).get? i =
      (cal.get? i).map fun row => row ++ [.fin (((i0 + i : Nat) : ℚ) * ts)] := by
  intro cal
  induction cal with
  | nil => intro i0 i; rfl
  | cons row rest ih =>
    intro i0 i
    match i with
    | 0 =>
      rw [appendTimeAux, List.get?_cons_zero, List.get?_cons_zero, Option.map_some']
      rw [Nat.add_zero]
    | i + 1 =>
      rw [appendTimeAux, List.get?_cons_succ, List.get?_cons_succ, ih (i0 + 1) i]
      have harith : i0 + 1 + i = i0 + (i + 1) := by omega
      rw [harith]

theorem timeCol_appendTimeAux_cons (ts : ℚ) (i0 : Nat) (row : List PyFloat)
    (rest : List (List PyFloat)) :
    timeCol (appendTimeAux ts i0 (row :: rest)) =
      PyFloat.fin ((i0 : ℚ) * ts) :: timeCol (appendTimeAux ts (i0 + 1) rest) := by
  rw [appendTimeAux, timeCol, List.filterMap_cons, List.getLast?_concat]
  rfl

theorem timeCol_appendTimeAux_length (ts : ℚ) : ∀ (cal : List (List PyFloat)) (i0 : Nat),
    (timeCol (appendTimeAux ts i0 cal)).length = cal.length := by
  intro cal
  induction cal with
  | nil => intro i0; rfl
  | cons row rest ih =>
    intro i0
    rw [timeCol_appendTimeAux_cons, List.length_cons, ih, List.length_cons]

theorem strictIncrB_time {ts : ℚ} (hts : 0 < ts) :
    ∀ (cal : List (List PyFloat)) (i0 : Nat),
      strictIncrB (timeCol (appendTimeAux ts i0 cal)) = true := by
  intro cal
  induction cal with
  | nil => intro i0; rfl
  | cons row rest ih =>
    intro i0
    rw [timeCol_appendTimeAux_cons]
    cases rest with
    | nil => rfl
    | cons row2 rest2 =>
      rw [timeCol_appendTimeAux_cons]
      rw [strictIncrB]
      have h1 : PyFloat.ltb (.fin ((i0 : ℚ) * ts)) (.fin (((i0 + 1 : Nat) : ℚ) * ts)) = true := by
        rw [PyFloat.ltb]
        simp only [decide_eq_true_eq]
        have hlt : ((i0 : ℚ)) < ((i0 + 1 : Nat) : ℚ) := by exact_mod_cast Nat.lt_succ_self i0
        exact mul_lt_mul_of_pos_right hlt hts
      rw [h1, Bool.true_and]
      have hrec := ih (i0 + 1)
      rw [timeCol_appendTimeAux_cons] at hrec
      exact hrec

/-- C5 (amended): on every successful conversion whose first selected
channel's `fsample` is POSITIVE, the exported time column (last entry of
every row) satisfies `time[i] = i / fsample` exactly, has length equal to the
row count, and is strictly increasing.  (The positivity hypothesis is
necessary: the source never validates `fsample`, and a negative value yields
a successful conversion with a strictly decreasing time column, see the
counterexample.) -/
theorem C5_time_column (fs : FS) (arch : Archive) (fs' : FS) (m : List (List PyFloat))
    (nd : SignalNode) (q : ℚ)
    (hrun : core fs arch = .ok fs') (hcsv : fs'.csv = some m)
    (hsel : selHead arch.nodes = some nd)
    (hq : pyFloat nd.fsample = .ok q) (hqpos : 0 < q) :
    (timeCol m).length = m.length ∧
    (∀ i row, m.get? i = some row → row.getLast? = some (.fin ((i : ℚ) / q))) ∧
    strictIncrB (timeCol m) = true := by
  rcases core_ok_write hrun hcsv with ⟨_, _, hy, n, hdr, c, sp, hfs', hp, hsp, htt, hdec⟩
  rcases parseNodes_none_cap hp with ⟨nd0, q0, hhead0, hq0, hq0ne, hc⟩
  rw [hsel] at hhead0
  cases Option.some.inj hhead0
  rw [hq] at hq0
  cases Except.ok.inj hq0
  rcases coreDecode_ok hdec with ⟨ti, fsm, adb, sg, lpf, hpf, tt, bytes, ints, mat, sel',
    cal, _, _, _, _, _, _, _, _, _, _, _, _, hout⟩
  have hm : m = appendTime cal c.timestep := by
    have hcsv' := congrArg FS.csv hout
    dsimp only at hcsv'
    exact Option.some.inj hcsv'
  have hts : c.timestep = 1 / q := by rw [hc]
  rw [hts] at hm
  have htspos : 0 < 1 / q := by positivity
  subst hm
  refine ⟨?_, ?_, strictIncrB_time htspos cal 0⟩
  · rw [appendTime, timeCol_appendTimeAux_length, appendTimeAux_length]
  · intro i row hrow
    rw [appendTime, appendTimeAux_get] at hrow
    rcases hcr : cal.get? i with _ | crow
    · rw [hcr] at hrow
      cases hrow
    · rw [hcr, Option.map_some'] at hrow
      cases Option.some.inj hrow
      rw [List.getLast?_concat]
      have harith : ((0 + i : Nat) : ℚ) * (1 / q) = (i : ℚ) / q := by
        rw [Nat.zero_add, mul_one_div]
      rw [harith]

/-- C5 witness: on the valid archive `a1` (`fsample = 1000 > 0`, two rows)
the exported time column is `[0, 1/1000]`: the last entry of row `i` is
`i / 1000`, its length is the row count 2, and it is strictly increasing. -/
theorem C5_time_column_witness :
    (timeCol m1out).length = m1out.length ∧
    (∀ i row, m1out.get? i = some row →
      row.getLast? = some (.fin ((i : ℚ) / 1000))) ∧
    strictIncrB (timeCol m1out) = true :=
  C5_time_column fs0 a1 fs1 m1out nd1 1000 (by with_unfolding_all rfl) rfl
    (by decide) (by decide) (by norm_num)

/-- C5 counterexample: the archive `a5` declares `fsample = -1`; the
conversion nevertheless succeeds and writes both files, and the exported time
column `[0, -1]` is strictly DECREASING — the claim's unconditional
"strictly increasing" is false for a successful conversion. -/
theorem C5_counterexample :
    core fs0 a5 = .ok ⟨some ⟨[0], [.absent], [.text "V"], [.fin 5], [.fin (-1)], [2],
        [.fin 2], [.fin 0], [.fin 500]⟩,
      some [[.fin (5 / 8), .fin 0], [.fin (5 / 4), .fin (-1)]]⟩ ∧
    strictIncrB (timeCol [[.fin (5 / 8), .fin 0], [.fin (5 / 4), .fin (-1)]]) = false := by
  exact ⟨by with_unfolding_all rfl, by with_unfolding_all rfl⟩

/-! ## C9: only the first selected channel's fsample matters -/

theorem push_rel {h1 h2 : RawHeaders} {a b : SignalNode}
    (hh : HdrButFsample h1 h2) (hab : SameButFsample a b) :
    HdrButFsample (h1.push a) (h2.push b) := by
  obtain ⟨e1, e2, e3, e4, e5, e6, e7, e8⟩ := hh
  obtain ⟨f1, f2, f3, f4, f5, f6, f7, f8, f9, f10⟩ := hab
  refine ⟨?_, ?_, ?_, ?_, ?_, ?_, ?_, ?_⟩ <;>
    simp [RawHeaders.push, e1, e2, e3, e4, e5, e6, e7, e8, f2, f3, f4, f5, f6, f7, f8]

theorem parseNodes_rel_some : ∀ {ns1 ns2 : List SignalNode},
    List.Forall₂ SameButFsample ns1 ns2 →
    ∀ {n : Nat} {h1 h2 : RawHeaders} {c : Common}
      {n1 : Nat} {h1' : RawHeaders} {cap1 : Option Common}
      {n2 : Nat} {h2' : RawHeaders} {cap2 : Option Common},
      0 < n →
      HdrButFsample h1 h2 →
      parseNodes ns1 n h1 (some c) = .ok (n1, h1', cap1) →
      parseNodes ns2 n h2 (some c) = .ok (n2, h2', cap2) →
      n1 = n2 ∧ HdrButFsample h1' h2' ∧ cap1 = cap2 := by
  intro ns1 ns2 hrel
  induction hrel with
  | nil =>
    intro n h1 h2 c n1 h1' cap1 n2 h2' cap2 hn hh p1 p2
    cases p1
    cases p2
    exact ⟨rfl, hh, rfl⟩
  | @cons a b l1 l2 hab hrest ih =>
    intro n h1 h2 c n1 h1' cap1 n2 h2' cap2 hn hh p1 p2
    rcases parseNodes_cons_ok p1 with ⟨p, hpa, hcase1⟩
    rcases parseNodes_cons_ok p2 with ⟨p', hpb, hcase2⟩
    have hpp : p' = p := by
      have hplug := hab.1
      rw [hpa, hpb] at hplug
      exact (Option.some.inj hplug).symm
    subst hpp
    rcases hcase1 with ⟨hne, q1⟩ | ⟨hsel, hn0, _, _, _, _⟩ | ⟨hsel, _, q1⟩
    · rcases hcase2 with ⟨_, q2⟩ | ⟨hsel2, _, _, _, _, _⟩ | ⟨hsel2, _, q2⟩
      · exact ih hn hh q1 q2
      · exact absurd hsel2 hne
      · exact absurd hsel2 hne
    · omega
    · rcases hcase2 with ⟨hne2, q2⟩ | ⟨_, hn02, _, _, _, _⟩ | ⟨_, _, q2⟩
      · exact absurd hsel hne2
      · omega
      · exact ih (by omega) (push_rel hh hab) q1 q2

theorem parseNodes_rel_none : ∀ {ns1 ns2 : List SignalNode},
    List.Forall₂ SameButFsample ns1 ns2 →
    (selHead ns1).map SignalNode.fsample = (selHead ns2).map SignalNode.fsample →
    ∀ {h1 h2 : RawHeaders}
      {n1 : Nat} {h1' : RawHeaders} {cap1 : Option Common}
      {n2 : Nat} {h2' : RawHeaders} {cap2 : Option Common},
      HdrButFsample h1 h2 →
      parseNodes ns1 0 h1 none = .ok (n1, h1', cap1) →
      parseNodes ns2 0 h2 none = .ok (n2, h2', cap2) →
      n1 = n2 ∧ HdrButFsample h1' h2' ∧ cap1 = cap2 := by
  intro ns1 ns2 hrel
  induction hrel with
  | nil =>
    intro _ h1 h2 n1 h1' cap1 n2 h2' cap2 hh p1 p2
    cases p1
    cases p2
    exact ⟨rfl, hh, rfl⟩
  | @cons a b l1 l2 hab hrest ih =>
    intro hhead h1 h2 n1 h1' cap1 n2 h2' cap2 hh p1 p2
    rcases parseNodes_cons_ok p1 with ⟨p, hpa, hcase1⟩
    rcases parseNodes_cons_ok p2 with ⟨p', hpb, hcase2⟩
    have hpp : p' = p := by
      have hplug := hab.1
      rw [hpa, hpb] at hplug
      exact (Option.some.inj hplug).symm
    subst hpp
    rcases hcase1 with ⟨hne, q1⟩ | ⟨hsel, _, qa, hqa, hqa0, q1⟩ | ⟨_, hn0, _⟩
    · rcases hcase2 with ⟨_, q2⟩ | ⟨hsel2, _, _, _, _, _⟩ | ⟨hsel2, _, _⟩
      · have hconda : (decide (a.plugin = some "LoaderOTComm")) = false := by
          rw [decide_eq_false_iff_not, hpa]
          intro hha
          exact hne (Option.some.inj hha)
        have hcondb : (decide (b.plugin = some "LoaderOTComm")) = false := by
          rw [decide_eq_false_iff_not, hpb]
          intro hhb
          exact hne (Option.some.inj hhb)
        rw [selHead, selHead, List.filter_cons, List.filter_cons, hconda, hcondb,
          if_neg Bool.false_ne_true, if_neg Bool.false_ne_true] at hhead
        exact ih hhead hh q1 q2
      · exact absurd hsel2 hne
      · exact absurd hsel2 hne
    · subst hsel
      rcases hcase2 with ⟨hne2, _⟩ | ⟨_, _, qb, hqb, hqb0, q2⟩ | ⟨_, hn02, _⟩
      · exact absurd rfl hne2
      · have hconda : (decide (a.plugin = some "LoaderOTComm")) = true := by
          rw [decide_eq_true_eq, hpa]
        have hcondb : (decide (b.plugin = some "LoaderOTComm")) = true := by
          rw [decide_eq_true_eq, hpb]
        rw [selHead, selHead, List.filter_cons, List.filter_cons, hconda, hcondb,
          if_pos rfl, if_pos rfl] at hhead
        have hfs : a.fsample = b.fsample := by
          have hthis := hhead
          simp only [List.head?_cons, Option.map_some'] at hthis
          exact Option.some.inj hthis
        rw [hfs, hqb] at hqa
        cases Except.ok.inj hqa
        have f9 : a.signal_path = b.signal_path := hab.2.2.2.2.2.2.2.2.1
        have f10 : a.track_totalnumber = b.track_totalnumber := hab.2.2.2.2.2.2.2.2.2
        rw [f9, f10] at q1
        exact parseNodes_rel_some hrest Nat.one_pos (push_rel hh hab) q1 q2
      · exact absurd rfl hn02
    · exact absurd rfl hn0

/-- C9: the sampling period is derived from the FIRST selected channel's
`fsample` only and never re-validated: for two archives identical except in
the `fsample` values of non-first selected channels, two successful
conversions export the very same data matrix — in particular the identical
time column. -/
theorem C9_fsample_first_only (fs : FS) (arch1 arch2 : Archive)
    (fs1 fs2 : FS) (m1 m2 : List (List PyFloat))
    (hnodes : List.Forall₂ SameButFsample arch1.nodes arch2.nodes)
    (hfiles : arch1.files = arch2.files)
    (hhead : (selHead arch1.nodes).map SignalNode.fsample
           = (selHead arch2.nodes).map SignalNode.fsample)
    (h1 : core fs arch1 = .ok fs1) (hm1 : fs1.csv = some m1)
    (h2 : core fs arch2 = .ok fs2) (hm2 : fs2.csv = some m2) :
    m1 = m2 ∧ timeCol m1 = timeCol m2 := by
  rcases core_ok_write h1 hm1 with ⟨-, -, hy1, n1, hdr1, c1, sp1, hfs1, hp1, hsp1, htt1, hdec1⟩
  rcases core_ok_write h2 hm2 with ⟨-, -, hy2, n2, hdr2, c2, sp2, hfs2, hp2, hsp2, htt2, hdec2⟩
  rcases parseNodes_rel_none hnodes hhead
    ⟨rfl, rfl, rfl, rfl, rfl, rfl, rfl, rfl⟩ hp1 hp2 with ⟨hn, hhdr, hcap⟩
  cases Option.some.inj hcap
  have hsp : sp1 = sp2 := Option.some.inj (hsp1.symm.trans hsp2)
  subst hsp
  rcases coreDecode_ok hdec1 with ⟨ti1, fsm1, adb1, sg1, lpf1, hpf1, tt1, bytes1, ints1,
    mat1, sel1, cal1, hti1, hfsm1, hadb1, hsg1, hlpf1, hhpf1, hpt1, hb1, hi1, hmat1,
    hscol1, hcal1, hout1⟩
  rcases coreDecode_ok hdec2 with ⟨ti2, fsm2, adb2, sg2, lpf2, hpf2, tt2, bytes2, ints2,
    mat2, sel2, cal2, hti2, hfsm2, hadb2, hsg2, hlpf2, hhpf2, hpt2, hb2, hi2, hmat2,
    hscol2, hcal2, hout2⟩
  obtain ⟨e1, e2, e3, e4, e5, e6, e7, e8⟩ := hhdr
  rw [← e1] at hti2
  cases Except.ok.inj (hti1.symm.trans hti2)
  rw [← e5] at hadb2
  cases Except.ok.inj (hadb1.symm.trans hadb2)
  rw [← e6] at hsg2
  cases Except.ok.inj (hsg1.symm.trans hsg2)
  cases Except.ok.inj (hpt1.symm.trans hpt2)
  rw [← hfiles] at hb2
  cases Except.ok.inj (hb1.symm.trans hb2)
  cases Except.ok.inj (hi1.symm.trans hi2)
  cases Except.ok.inj (hmat1.symm.trans hmat2)
  cases Except.ok.inj (hscol1.symm.trans hscol2)
  rw [← e3, ← e4] at hcal2
  cases Except.ok.inj (hcal1.symm.trans hcal2)
  have hm1' : m1 = appendTime cal1 c1.timestep := by
    have hcsv' := congrArg FS.csv hout1
    dsimp only at hcsv'
    exact Option.some.inj hcsv'
  have hm2' : m2 = appendTime cal1 c1.timestep := by
    have hcsv' := congrArg FS.csv hout2
    dsimp only at hcsv'
    exact Option.some.inj hcsv'
  rw [hm1', hm2']
  exact ⟨rfl, rfl⟩

/-- C9 witness: `a2` and `a2v` differ exactly in the second selected
channel's `fsample`; both conversions succeed and export the same data
matrix and the same time column. -/
theorem C9_fsample_first_only_witness :
    ([[PyFloat.fin (5 / 4), .nan, .fin 0]] : List (List PyFloat)) =
      [[PyFloat.fin (5 / 4), .nan, .fin 0]] ∧
    timeCol [[PyFloat.fin (5 / 4), .nan, .fin 0]] =
      timeCol [[PyFloat.fin (5 / 4), .nan, .fin 0]] := by
  refine C9_fsample_first_only fs0 a2 a2v
    ⟨some hdr2ToOut, some [[PyFloat.fin (5 / 4), .nan, .fin 0]]⟩
    ⟨some hdr2vOut, some [[PyFloat.fin (5 / 4), .nan, .fin 0]]⟩
    _ _ ?_ rfl rfl ?_ rfl ?_ rfl
  · exact List.Forall₂.cons ⟨rfl, rfl, rfl, rfl, rfl, rfl, rfl, rfl, rfl, rfl⟩
      (List.Forall₂.cons ⟨rfl, rfl, rfl, rfl, rfl, rfl, rfl, rfl, rfl, rfl⟩
        List.Forall₂.nil)
  · with_unfolding_all rfl
  · with_unfolding_all rfl

end OTRead
